import Mathlib

/-!
Verification development for the schema-resolution core of this repository.

Two source modules are embedded:

* Model A embeds the structural classifier and decomposer of
  `src/tyro/_fields.py`: the missing-value sentinels, the field-definition
  record and its constructor invariant, and the function
  `_try_field_list_from_callable` together with the per-shape helpers it
  dispatches to (TypedDict, NamedTuple, dataclass, tuple, dict, sequence,
  known-parsable short circuit, general callable).

* Model B embeds the recursive parser builder of `src/dcargs/_parsers.py`:
  `ParserDefinition.from_dataclass` with its cyclic-dependency assertion,
  generic-parameter substitution-map composition, nested-dataclass argument
  splicing, and the union-of-dataclasses subcommand construction.

Python types and runtime values are embedded as the inductives `Ty` and
`Value` below.  Machinery that lives outside `src/` (the reflection
resolver, docstring extraction, the command-line front end) is modelled as
stated in the doc comment of each definition that needs it.
-/

/-! ## Model A: data model for `src/tyro/_fields.py` -/

/-- Markers from `tyro.conf._markers` as used by `_fields.py`:
`Positional`, `_PositionalCall`, `Fixed`, `Suppress`. -/
inductive Marker where
  | positional
  | positionalCall
  | fixed
  | suppress
deriving DecidableEq

mutual

/-- A structural type, as classified by `_try_field_list_from_callable`.
`prim name known` is a plain class that matches none of the record or
container shapes; `known` records whether it is a member of the fixed
allow-list `_known_parsable_types` (builtins, `typing`, `typing_extensions`
and `collections.abc` members).  The container classes `tuple`, `dict`,
`list` are builtins and hence always members of the allow-list; this is
captured by `inKnownParsableTypes` below. -/
inductive Ty where
  | prim (name : String) (known : Bool)
  | dataclass (name : String) (fields : List DCField)
  | namedtuple (name : String) (fields : List NTField)
  | typeddict (name : String) (total : Bool) (fields : List TDField)
  | tupleTy (children : List Ty)
  | tupleVar (elem : Ty)
  | listTy (elem : Option Ty)
  | dictTy

/-- One `dataclasses.Field`: declared name, annotation, declared default
(`dcMissing` when absent), optional default factory (modelled by the value
the factory returns), whether the factory literally is the field type
(the special case of `_get_dataclass_field_default`), and `init`. -/
inductive DCField where
  | mk (name : String) (ftype : Ty) (default : Value) (defaultFactory : Option Value)
      (factoryIsFieldType : Bool) (init : Bool)

/-- One NamedTuple field: name, annotation, and the entry of
`cls._field_defaults` when present. -/
inductive NTField where
  | mk (name : String) (ftype : Ty) (default : Option Value)

/-- One TypedDict field: name and annotation from `get_type_hints`. -/
inductive TDField where
  | mk (name : String) (ftype : Ty)

/-- A runtime Python value as far as `_fields.py` inspects one: scalars,
tuples, lists, string-keyed dicts, record instances (dataclass or
NamedTuple instances; `vrecord ty attrs` carries the instance type and its
attribute map), and the sentinel singletons of the module. -/
inductive Value where
  | vint (n : Int)
  | vstr (s : String)
  | vbool (b : Bool)
  | vnone
  | vtuple (elems : List Value)
  | vlist (elems : List Value)
  | vdict (entries : List (String × Value))
  | vrecord (ty : Ty) (attrs : List (String × Value))
  | missingProp
  | missingNonprop
  | excludeFromCall
  | dcMissing
  | paramEmpty

end

/-- Field name accessor. -/
def DCField.fname : DCField → String
  | .mk n _ _ _ _ _ => n

/-- Field annotation accessor. -/
def DCField.ftype : DCField → Ty
  | .mk _ t _ _ _ _ => t

/-- Declared default accessor. -/
def DCField.default : DCField → Value
  | .mk _ _ d _ _ _ => d

/-- Default factory accessor. -/
def DCField.defaultFactory : DCField → Option Value
  | .mk _ _ _ f _ _ => f

/-- Whether the declared default factory is the field type itself. -/
def DCField.factoryIsFieldType : DCField → Bool
  | .mk _ _ _ _ b _ => b

/-- The `init` flag of the dataclass field. -/
def DCField.init : DCField → Bool
  | .mk _ _ _ _ _ i => i

/-- NamedTuple field name. -/
def NTField.fname : NTField → String
  | .mk n _ _ => n

/-- NamedTuple field annotation. -/
def NTField.ftype : NTField → Ty
  | .mk _ t _ => t

/-- NamedTuple `_field_defaults` entry. -/
def NTField.default : NTField → Option Value
  | .mk _ _ d => d

/-- TypedDict field name. -/
def TDField.fname : TDField → String
  | .mk n _ => n

/-- TypedDict field annotation. -/
def TDField.ftype : TDField → Ty
  | .mk _ t => t

mutual

/-- Size of a type (for termination of the classifier). -/
def tySize : Ty → Nat
  | .prim _ _ => 1
  | .dataclass _ fs => 1 + dcFieldsSize fs
  | .namedtuple _ fs => 1 + ntFieldsSize fs
  | .typeddict _ _ fs => 1 + tdFieldsSize fs
  | .tupleTy cs => 1 + tyListSize cs
  | .tupleVar e => 1 + tySize e
  | .listTy none => 2
  | .listTy (some e) => 1 + tySize e
  | .dictTy => 1

/-- Size of a list of types. -/
def tyListSize : List Ty → Nat
  | [] => 0
  | t :: ts => tySize t + tyListSize ts

/-- Size of a dataclass field. -/
def dcFieldSize : DCField → Nat
  | .mk _ t d f _ _ => 1 + tySize t + valSize d + optValSize f

/-- Size of a list of dataclass fields. -/
def dcFieldsSize : List DCField → Nat
  | [] => 0
  | f :: fs => dcFieldSize f + dcFieldsSize fs

/-- Size of a NamedTuple field. -/
def ntFieldSize : NTField → Nat
  | .mk _ t d => 1 + tySize t + optValSize d

/-- Size of a list of NamedTuple fields. -/
def ntFieldsSize : List NTField → Nat
  | [] => 0
  | f :: fs => ntFieldSize f + ntFieldsSize fs

/-- Size of a TypedDict field. -/
def tdFieldSize : TDField → Nat
  | .mk _ t => 1 + tySize t

/-- Size of a list of TypedDict fields. -/
def tdFieldsSize : List TDField → Nat
  | [] => 0
  | f :: fs => tdFieldSize f + tdFieldsSize fs

/-- Size of a value (for termination of the classifier). -/
def valSize : Value → Nat
  | .vint _ => 1
  | .vstr _ => 1
  | .vbool _ => 1
  | .vnone => 1
  | .vtuple es => 1 + valListSize es
  | .vlist es => 1 + valListSize es
  | .vdict es => 1 + entriesSize es
  | .vrecord t attrs => 1 + tySize t + entriesSize attrs
  | .missingProp => 1
  | .missingNonprop => 1
  | .excludeFromCall => 1
  | .dcMissing => 1
  | .paramEmpty => 1

/-- Size of a list of values. -/
def valListSize : List Value → Nat
  | [] => 0
  | v :: vs => valSize v + valListSize vs

/-- Size of an attribute (or dict-entry) list. -/
def entriesSize : List (String × Value) → Nat
  | [] => 0
  | e :: es => 1 + valSize e.2 + entriesSize es

/-- Size of an optional value. -/
def optValSize : Option Value → Nat
  | none => 0
  | some v => valSize v

end

theorem tySize_pos (t : Ty) : 1 ≤ tySize t := by
  cases t with
  | listTy e => cases e <;> (simp only [tySize]; omega)
  | _ => simp only [tySize] <;> omega

theorem valSize_pos (v : Value) : 1 ≤ valSize v := by
  cases v <;> simp only [valSize] <;> omega

theorem valSize_le_of_mem {v : Value} {l : List Value} (h : v ∈ l) :
    valSize v ≤ valListSize l := by
  induction l with
  | nil => cases h
  | cons x xs ih =>
    rcases List.mem_cons.mp h with h1 | h2
    · subst h1; simp only [valListSize]; omega
    · have := ih h2; simp only [valListSize]; omega

theorem tySize_le_of_mem {t : Ty} {l : List Ty} (h : t ∈ l) :
    tySize t ≤ tyListSize l := by
  induction l with
  | nil => cases h
  | cons x xs ih =>
    rcases List.mem_cons.mp h with h1 | h2
    · subst h1; simp only [tyListSize]; omega
    · have := ih h2; simp only [tyListSize]; omega

theorem tdFieldSize_le_of_mem {f : TDField} {l : List TDField} (h : f ∈ l) :
    tdFieldSize f ≤ tdFieldsSize l := by
  induction l with
  | nil => cases h
  | cons x xs ih =>
    rcases List.mem_cons.mp h with h1 | h2
    · subst h1; simp only [tdFieldsSize]; omega
    · have := ih h2; simp only [tdFieldsSize]; omega

theorem dcFieldSize_le_of_mem {f : DCField} {l : List DCField} (h : f ∈ l) :
    dcFieldSize f ≤ dcFieldsSize l := by
  induction l with
  | nil => cases h
  | cons x xs ih =>
    rcases List.mem_cons.mp h with h1 | h2
    · subst h1; simp only [dcFieldsSize]; omega
    · have := ih h2; simp only [dcFieldsSize]; omega

theorem ntFieldSize_le_of_mem {f : NTField} {l : List NTField} (h : f ∈ l) :
    ntFieldSize f ≤ ntFieldsSize l := by
  induction l with
  | nil => cases h
  | cons x xs ih =>
    rcases List.mem_cons.mp h with h1 | h2
    · subst h1; simp only [ntFieldsSize]; omega
    · have := ih h2; simp only [ntFieldsSize]; omega

/-! ## Sentinels, field definitions, and default helpers -/

/-- Membership in `MISSING_SINGLETONS`
(`dataclasses.MISSING`, `MISSING_PROP`, `MISSING_NONPROP`,
`inspect.Parameter.empty`; the optional `omegaconf.MISSING` entry is not
modelled since that import is absent).  The Python membership test uses
equality, and no concrete value compares equal to any sentinel. -/
def isMissingSingleton : Value → Bool
  | .missingProp => true
  | .missingNonprop => true
  | .dcMissing => true
  | .paramEmpty => true
  | _ => false

/-- The `valid_default_instance` test of `_field_list_from_typeddict`:
`default_instance not in MISSING_SINGLETONS and default_instance is not
EXCLUDE_FROM_CALL`. -/
def validDefaultInstance : Value → Bool
  | .excludeFromCall => false
  | v => !(isMissingSingleton v)

theorem valSize_eq_one_of_not_valid {d : Value}
    (h : validDefaultInstance d = false) : valSize d = 1 := by
  cases d <;> simp_all [validDefaultInstance, isMissingSingleton, valSize]

/-- Python `getattr(instance, name)` combined with `hasattr`: the attribute map of
a record instance; every other runtime value reports no attribute for the
(field-like) names the resolver probes. -/
def hasattrGet (v : Value) (name : String) : Option Value :=
  match v with
  | .vrecord _ attrs => attrs.lookup name
  | _ => none

/-- Python `type(x)` for a runtime value: record instances report their carried
class, containers report the bare (unsubscripted) container class, scalars
report the corresponding builtin, and the sentinel singletons report their
private (not allow-listed) classes. -/
def typeOf : Value → Ty
  | .vint _ => .prim ("int") true
  | .vstr _ => .prim ("str") true
  | .vbool _ => .prim ("bool") true
  | .vnone => .prim ("NoneType") true
  | .vtuple _ => .tupleTy []
  | .vlist _ => .listTy none
  | .vdict _ => .dictTy
  | .vrecord t _ => t
  | .missingProp => .prim ("PropagatingMissingType") false
  | .missingNonprop => .prim ("NonpropagatingMissingType") false
  | .excludeFromCall => .prim ("ExcludeFromCallType") false
  | .dcMissing => .prim ("MISSING_TYPE") false
  | .paramEmpty => .prim ("empty") false

/-- Python iteration over a default instance (`for x in default`): lists and
tuples yield their elements, dicts yield their keys, strings yield their
one-character substrings; scalars, records without `__iter__`, and the
sentinels are not iterable. -/
def iterElems : Value → Option (List Value)
  | .vtuple es => some es
  | .vlist es => some es
  | .vdict es => some (es.map (fun e => .vstr e.1))
  | .vstr s => some (s.toList.map (fun c => .vstr (String.mk [c])))
  | _ => none

theorem entriesSize_pos_of_mem {e : String × Value} {es : List (String × Value)}
    (h : e ∈ es) : 1 ≤ entriesSize es := by
  induction es with
  | nil => cases h
  | cons a as ih =>
    simp only [entriesSize]
    have := valSize_pos a.2
    omega

theorem iterElems_size {d : Value} {l : List Value} (h : iterElems d = some l)
    {x : Value} (hx : x ∈ l) :
    valSize x < valSize d ∨
      (valSize x = 1 ∧ tySize (typeOf x) = 1 ∧ valSize d = 1) := by
  cases d with
  | vtuple es =>
    simp only [iterElems, Option.some.injEq] at h
    subst h
    have := valSize_le_of_mem hx
    left; simp only [valSize]; omega
  | vlist es =>
    simp only [iterElems, Option.some.injEq] at h
    subst h
    have := valSize_le_of_mem hx
    left; simp only [valSize]; omega
  | vdict es =>
    simp only [iterElems, Option.some.injEq] at h
    subst h
    simp only [List.mem_map] at hx
    obtain ⟨e, he, rfl⟩ := hx
    have := entriesSize_pos_of_mem he
    left; simp only [valSize]; omega
  | vstr s =>
    simp only [iterElems, Option.some.injEq] at h
    subst h
    simp only [List.mem_map] at hx
    obtain ⟨c, _, rfl⟩ := hx
    right
    exact ⟨rfl, rfl, rfl⟩
  | _ => exact absurd h (by simp [iterElems])

/-- Identity test against the `None` singleton. -/
def isVNone : Value → Bool
  | .vnone => true
  | _ => false

/-- Test `dataclasses.is_dataclass` on an annotation, as used by the
default-factory special case of `_get_dataclass_field_default`. -/
def isDataclassTy : Ty → Bool
  | .dataclass _ _ => true
  | _ => false

/-- A normalized leaf field record, `FieldDefinition` of `_fields.py`.
The `argconf` carried by the source record holds only annotation-derived
overrides, which the `Ty` grammar does not produce; it is omitted. -/
structure FieldDefinition where
  name : String
  typ : Ty
  default : Value
  helptext : Option String
  markers : List Marker
  callArgname : String

/-- Constructor `FieldDefinition.make` followed by `__post_init__`: construction fails
with `UnsupportedTypeAnnotationError` when the marker set contains `Fixed`
or `Suppress` while the default is one of the missing sentinels.  Since the
`Ty` grammar carries no `Annotated` wrappers, the annotation-inferred
markers and argconf of the source `make` are empty and the explicit
`markers` argument is the whole marker set. -/
def FieldDefinition.make (name : String) (typ : Ty) (default : Value)
    (helptext : Option String) (callArgnameOverride : Option String)
    (markers : List Marker) : Except String FieldDefinition :=
  if (Marker.fixed ∈ markers ∨ Marker.suppress ∈ markers) ∧
      isMissingSingleton default = true then
    .error ("Field is missing a default value!")
  else
    .ok
      { name := name
        typ := typ
        default := default
        helptext := helptext
        markers := markers
        callArgname := callArgnameOverride.getD name }

/-- Plain construction of a `FieldDefinition` with no markers, as every
call site inside the classifier performs it (`FieldDefinition.make` with
empty markers never raises, see `FieldDefinition.make_no_markers`). -/
def simpleFD (name : String) (typ : Ty) (default : Value)
    (callArgname : Option String) : FieldDefinition :=
  { name := name
    typ := typ
    default := default
    helptext := none
    markers := []
    callArgname := callArgname.getD name }

theorem FieldDefinition.make_no_markers (name : String) (typ : Ty)
    (default : Value) (c : Option String) :
    FieldDefinition.make name typ default none c [] =
      .ok (simpleFD name typ default c) := by
  simp [FieldDefinition.make, simpleFD]

/-- Helper `_get_dataclass_field_default` (src/tyro/_fields.py lines 700-751):
child default resolution for one dataclass field given the parent default
instance.  Priority: a Propagating-Missing parent forces Propagating-
Missing; else a matching attribute of a concrete parent; else the declared
field default; else the declared default factory (ignored when the factory
is literally the field dataclass type); else Nonpropagating-Missing.
The aliasing (frozen-check) warning on the declared-default path only
warns and does not change the returned value; it is not modelled. -/
def getDataclassFieldDefault (field : DCField) (parent : Value) : Value :=
  match parent with
  | .missingProp => .missingProp
  | _ =>
    let fromParent : Option Value :=
      if isMissingSingleton parent = false && isVNone parent = false then
        hasattrGet parent field.fname
      else
        none
    match fromParent with
    | some v => v
    | none =>
      if isMissingSingleton field.default = false then
        field.default
      else
        match field.defaultFactory with
        | some v =>
          if isDataclassTy field.ftype && field.factoryIsFieldType then
            .missingNonprop
          else
            v
        | none => .missingNonprop

/-- Whether the advisory warning of `_get_dataclass_field_default`
(lines 717-723) fires: a concrete (non-missing, non-None) parent default
instance lacks the attribute the field expects. -/
def missingAttributeWarning (field : DCField) (parent : Value) : Bool :=
  match parent with
  | .missingProp => false
  | _ =>
    !(isMissingSingleton parent) && !(isVNone parent) &&
      (hasattrGet parent field.fname).isNone

/-- The per-field default rule of `_field_list_from_namedtuple`
(src/tyro/_fields.py lines 319-325): the `_field_defaults` entry (else
Nonpropagating-Missing), overridden by a matching attribute of the supplied
default instance, overridden by Propagating-Missing when the parent default
is the Propagating-Missing sentinel. -/
def namedtupleFieldDefault (field : NTField) (parent : Value) : Value :=
  let d0 := field.default.getD .missingNonprop
  let d1 :=
    match hasattrGet parent field.fname with
    | some v => v
    | none => d0
  match parent with
  | .missingProp => .missingProp
  | _ => d1

/-! ## The structural classifier, `_try_field_list_from_callable` -/

/-- Result of classification: a field list (the type decomposes), an
`UnsupportedNestedTypeMessage` (the type is a direct leaf), or a raised
`UnsupportedTypeAnnotationError` or other exception (a hard error). -/
inductive FLResult where
  | fields (fs : List FieldDefinition)
  | unsupported (msg : String)
  | raised (msg : String)

/-- Projection: did classification produce a field list? -/
def FLResult.isFields : FLResult → Bool
  | .fields _ => true
  | _ => false

def knownParsableMsg : String := "should be parsed directly!"
def generalDefaultMsg : String :=
  "default instance is supported only for select types"
def generalNoSigMsg : String := "could not get hints"
def typedDictAssertMsg : String := "assert failed: default instance is not a dict"
def totalFalseMsg : String := "total=False not supported for nested structures."
def tupleNeedsDefaultMsg : String :=
  "if contained types of a tuple are not specified, a default instance must be specified."
def tupleAssertMsg : String := "assert failed: default instance is not a tuple"
def tupleNoNestedMsg : String := "tuple does not contain any nested structures."
def indexErrorMsg : String := "IndexError: default instance is too short"
def subscriptErrorMsg : String := "TypeError: default instance is not subscriptable"
def seqNeedsTypeMsg : String :=
  "sequence type needs either an explicit type or a default to infer from."
def seqDirectMsg : String := "sequence containing type should be parsed directly!"
def seqDefaultDirectMsg : String := "sequence with default should be parsed directly!"
def varLenNeedsDefaultMsg : String :=
  "for variable-length sequences over nested types, we need a default value to infer length from."
def stopIterationMsg : String := "StopIteration: default instance is empty"
def notIterableMsg : String := "TypeError: default instance is not iterable"
def dictNeedsDefaultMsg : String :=
  "nested dictionary structures must have a default instance specified."
def dictItemsMsg : String := "AttributeError: default instance has no items"

/-- Python subscripting `default_instance[i]`, as used by the tuple branch:
tuples, lists and strings support integer indexing; other values raise. -/
def subscriptElems : Value → Option (List Value)
  | .vtuple es => some es
  | .vlist es => some es
  | .vstr s => some (s.toList.map (fun c => .vstr (String.mk [c])))
  | _ => none

theorem subscriptElems_size {d : Value} {l : List Value}
    (h : subscriptElems d = some l) {x : Value} (hx : x ∈ l) :
    valSize x < valSize d ∨ (valSize x = 1 ∧ valSize d = 1) := by
  cases d with
  | vtuple es =>
    simp only [subscriptElems, Option.some.injEq] at h
    subst h
    have := valSize_le_of_mem hx
    left; simp only [valSize]; omega
  | vlist es =>
    simp only [subscriptElems, Option.some.injEq] at h
    subst h
    have := valSize_le_of_mem hx
    left; simp only [valSize]; omega
  | vstr s =>
    simp only [subscriptElems, Option.some.injEq] at h
    subst h
    simp only [List.mem_map] at hx
    obtain ⟨c, _, rfl⟩ := hx
    right; exact ⟨rfl, rfl⟩
  | _ => exact absurd h (by simp [subscriptElems])

theorem valSize_eq_one_of_missing {d : Value} (h : isMissingSingleton d = true) :
    valSize d = 1 := by
  cases d <;> simp_all [isMissingSingleton, valSize]

theorem tySize_ftype_lt_tdFieldsSize {f : TDField} {l : List TDField}
    (h : f ∈ l) : tySize f.ftype < tdFieldsSize l := by
  have h1 := tdFieldSize_le_of_mem h
  have h2 : tySize f.ftype < tdFieldSize f := by
    cases f; simp only [TDField.ftype, tdFieldSize]; omega
  omega

theorem zip_mem_both {α β : Type} {pr : α × β} {l1 : List α} {l2 : List β}
    (h : pr ∈ l1.zip l2) : pr.1 ∈ l1 ∧ pr.2 ∈ l2 := by
  induction l1 generalizing l2 with
  | nil => simp [List.zip] at h
  | cons x xs ih =>
    cases l2 with
    | nil => simp [List.zip] at h
    | cons y ys =>
      simp only [List.zip_cons_cons, List.mem_cons] at h
      rcases h with h | h
      · subst h
        exact ⟨List.mem_cons_self _ _, List.mem_cons_self _ _⟩
      · have := ih h
        exact ⟨List.mem_cons_of_mem _ this.1, List.mem_cons_of_mem _ this.2⟩

theorem lex_of {a1 a2 b1 b2 : Nat} (h : a1 < b1 ∨ (a1 = b1 ∧ a2 < b2)) :
    Prod.Lex (fun x y => x < y) (fun x y => x < y) (a1, a2) (b1, b2) := by
  rcases h with h | ⟨h1, h2⟩
  · exact Prod.Lex.left _ _ h
  · subst h1; exact Prod.Lex.right _ h2

/-- The classifier `_try_field_list_from_callable` of `src/tyro/_fields.py`
(lines 210-272) fused with the per-shape helpers it dispatches to:
`_field_list_from_typeddict`, `_field_list_from_namedtuple`,
`_field_list_from_dataclass`, `_field_list_from_tuple`,
`_field_list_from_dict`, `_field_list_from_sequence_checked`,
`_try_field_list_from_sequence_inner`, and
`_try_field_list_from_general_callable`.  Notes on the embedding:

* The entry steps that unwrap `Annotated` subcommand configurations and
  resolve generics (`_resolver.unwrap_annotated`,
  `_resolver.resolve_generic_types`, `_resolver.narrow_type`) are external
  resolver calls; the `Ty` grammar carries no wrappers, so they are the
  identity here.
* The class-shape matches are tried in source order (TypedDict,
  NamedTuple, dataclass); the optional attrs and pydantic matches never
  fire because those packages are absent.  The constructors of `Ty` are
  disjoint, so the match below is faithful to that priority order.
* Nestedness tests `is_nested_type(t, d)` appear inline as a match on the
  recursive call (see `isNestedType` below for the wrapper).
* In `_try_field_list_from_sequence_inner` the first guard
  (`default_instance in MISSING_SINGLETONS and not is_nested_type(...)`)
  short-circuits, so the recursive test runs only under a missing default;
  the branch structure below mirrors that.
* For a bare (unsubscripted) sequence annotation with a concrete default,
  the source takes `next(iter(default_instance))` itself as the contained
  annotation (a value standing in a type position); here the stored
  annotation is the runtime type of that element.
* The raise inside the `total=False` TypedDict loop is equivalent to the
  existential test below: the loop raises exactly when some field type is
  nested.
-/
def tryFieldListFromCallable : Ty → Value → FLResult
  | .typeddict _ total ftys, d =>
    if validDefaultInstance d then
      match d with
      | .vdict entries =>
        .fields (ftys.map fun ft =>
          simpleFD ft.fname ft.ftype ((entries.lookup ft.fname).getD .missingProp) none)
      | _ => .raised typedDictAssertMsg
    else if total = false then
      if ftys.attach.any (fun ft =>
          match tryFieldListFromCallable ft.1.ftype .missingNonprop with
          | .fields _ => true
          | _ => false) then
        .raised totalFalseMsg
      else
        .fields (ftys.map fun ft => simpleFD ft.fname ft.ftype .excludeFromCall none)
    else
      .fields (ftys.map fun ft => simpleFD ft.fname ft.ftype .missingProp none)
  | .namedtuple _ fs, d =>
    .fields (fs.map fun f => simpleFD f.fname f.ftype (namedtupleFieldDefault f d) none)
  | .dataclass _ fs, d =>
    .fields ((fs.filter (fun f => f.init)).map fun f =>
      simpleFD f.fname f.ftype (getDataclassFieldDefault f d) none)
  | .tupleTy children, d =>
    if children.isEmpty then
      if isMissingSingleton d then .raised tupleNeedsDefaultMsg
      else
        match d with
        | .vtuple elems =>
          if elems.attach.any (fun e =>
              match tryFieldListFromCallable (typeOf e.1) e.1 with
              | .fields _ => true
              | _ => false) then
            .fields (elems.enum.map fun p => simpleFD (toString p.1) (typeOf p.2) p.2 none)
          else
            .unsupported tupleNoNestedMsg
        | _ => .raised tupleAssertMsg
    else if isMissingSingleton d || (match d with | .excludeFromCall => true | _ => false) then
      if children.attach.any (fun c =>
          match tryFieldListFromCallable c.1 d with
          | .fields _ => true
          | _ => false) then
        .fields (children.enum.map fun p => simpleFD (toString p.1) p.2 d none)
      else
        .unsupported tupleNoNestedMsg
    else
      match hs : subscriptElems d with
      | some elems =>
        if elems.length < children.length then .raised indexErrorMsg
        else if (children.zip elems).attach.any (fun p =>
            match tryFieldListFromCallable p.1.1 p.1.2 with
            | .fields _ => true
            | _ => false) then
          .fields ((children.zip elems).enum.map fun p =>
            simpleFD (toString p.1) p.2.1 p.2.2 none)
        else
          .unsupported tupleNoNestedMsg
      | none => .raised subscriptErrorMsg
  | .tupleVar elem, d =>
    if isMissingSingleton d then
      match tryFieldListFromCallable elem .missingNonprop with
      | .fields _ => .raised varLenNeedsDefaultMsg
      | _ => .unsupported seqDirectMsg
    else
      match hi : iterElems d with
      | some xs =>
        if xs.attach.all (fun x =>
            match tryFieldListFromCallable (typeOf x.1) x.1 with
            | .fields _ => false
            | _ => true) then
          .unsupported seqDefaultDirectMsg
        else
          .fields (xs.enum.map fun p => simpleFD (toString p.1) elem p.2 none)
      | none => .raised notIterableMsg
  | .listTy (some elem), d =>
    if isMissingSingleton d then
      match tryFieldListFromCallable elem .missingNonprop with
      | .fields _ => .raised varLenNeedsDefaultMsg
      | _ => .unsupported seqDirectMsg
    else
      match hi : iterElems d with
      | some xs =>
        if xs.attach.all (fun x =>
            match tryFieldListFromCallable (typeOf x.1) x.1 with
            | .fields _ => false
            | _ => true) then
          .unsupported seqDefaultDirectMsg
        else
          .fields (xs.enum.map fun p => simpleFD (toString p.1) elem p.2 none)
      | none => .raised notIterableMsg
  | .listTy none, d =>
    if isMissingSingleton d then .raised seqNeedsTypeMsg
    else
      match hi : iterElems d with
      | some [] => .raised stopIterationMsg
      | some (x0 :: xs) =>
        if (x0 :: xs).attach.all (fun x =>
            match tryFieldListFromCallable (typeOf x.1) x.1 with
            | .fields _ => false
            | _ => true) then
          .unsupported seqDefaultDirectMsg
        else
          .fields ((x0 :: xs).enum.map fun p =>
            simpleFD (toString p.1) (typeOf x0) p.2 none)
      | none => .raised notIterableMsg
  | .dictTy, d =>
    if isMissingSingleton d then .unsupported dictNeedsDefaultMsg
    else
      match d with
      | .vdict entries =>
        .fields (entries.map fun e => simpleFD e.1 (typeOf e.2) e.2 (some e.1))
      | _ => .raised dictItemsMsg
  | .prim _ known, d =>
    if known then .unsupported knownParsableMsg
    else if isMissingSingleton d = false then .unsupported generalDefaultMsg
    else .unsupported generalNoSigMsg
termination_by t d => (valSize d, tySize t)
decreasing_by
all_goals apply lex_of
all_goals first
  | -- TypedDict with total=False: nestedness test on a field annotation.
    (have hd : valSize d = 1 :=
       valSize_eq_one_of_not_valid
         (Bool.eq_false_iff.mpr (fun hh => absurd hh (by assumption)))
     have hm := tySize_ftype_lt_tdFieldsSize ft.2
     right
     refine ⟨?_, ?_⟩
     · simp only [valSize, hd]
     · simp only [tySize]; omega)
  | -- Sequence shapes with a missing default: test on the element type.
    (have hd : valSize d = 1 :=
       valSize_eq_one_of_missing (by assumption)
     right
     refine ⟨?_, ?_⟩
     · simp only [valSize, hd]
     · simp only [tySize]; omega)
  | -- Bare tuple annotation: test on each element of the tuple default.
    (left
     have := valSize_le_of_mem e.2
     simp only [valSize]; omega)
  | -- Subscripted tuple, missing/excluded default: test on each child.
    (right
     refine ⟨rfl, ?_⟩
     have := tySize_le_of_mem c.2
     simp only [tySize]; omega)
  | -- Subscripted tuple, concrete default: test on child and element.
    (rcases subscriptElems_size hs (zip_mem_both p.2).2 with h | ⟨h1, h2⟩
     · left; exact h
     · right
       refine ⟨by omega, ?_⟩
       have := tySize_le_of_mem (zip_mem_both p.2).1
       simp only [tySize]; omega)
  | -- Sequence shapes with a concrete default: test on each element.
    (rcases iterElems_size hi x.2 with h | ⟨h1, h2, h3⟩
     · left; exact h
     · right
       refine ⟨by omega, ?_⟩
       simp only [tySize, h2]
       first
       | (have h := tySize_pos elem; omega)
       | omega)

/-- Predicate `is_nested_type(typ, default)` of `src/tyro/_fields.py`: the type
decomposes into a field list. -/
def isNestedType (t : Ty) (d : Value) : Bool :=
  (tryFieldListFromCallable t d).isFields

@[simp] theorem isFields_match (r : FLResult) :
    (match r with | .fields _ => true | _ => false) = r.isFields := by
  cases r <;> rfl

theorem isNestedType_def (t : Ty) (d : Value) :
    isNestedType t d = (tryFieldListFromCallable t d).isFields := rfl

/-! ## Leaf-default collection (nesting of the record-shape default rules) -/

/-- A named-field record shape (spec section 4.1a and glossary): dataclass,
NamedTuple, or TypedDict. -/
def isRecordTy : Ty → Bool
  | .dataclass _ _ => true
  | .namedtuple _ _ => true
  | .typeddict _ _ _ => true
  | _ => false

/-- Modelled from the spec: the recursive Field Tree Assembler (spec 4.4)
for the record shapes.  The assembler that recursively feeds each nested
resolved default of each field back into resolution is not part of `src/` for
this module (only its per-level default rules `_get_dataclass_field_default`,
`_field_list_from_namedtuple` and `_field_list_from_typeddict` are); this
definition recurses exactly as the spec describes, using those source-level
rules at each level, and collects the defaults of all reachable leaves.  For
a TypedDict the per-field default follows `_field_list_from_typeddict` branch
by branch: a concrete dict default supplies per-key defaults, a `total=False`
TypedDict without one gives every field the Excluded sentinel (and the source
raises when one of its field types is nested, so no leaves are collected
then), a `total=True` one gives every field Propagating-Missing; a valid
default that is not a dict fails the source assertion, so no leaves are
collected in that case either. -/
def collectLeafDefaults : Ty → Value → List Value
  | .dataclass _ fs, d =>
    ((fs.filter (fun f => f.init)).attach.map (fun f =>
      if isRecordTy f.1.ftype then
        collectLeafDefaults f.1.ftype (getDataclassFieldDefault f.1 d)
      else
        [getDataclassFieldDefault f.1 d])).flatten
  | .namedtuple _ fs, d =>
    (fs.attach.map (fun f =>
      if isRecordTy f.1.ftype then
        collectLeafDefaults f.1.ftype (namedtupleFieldDefault f.1 d)
      else
        [namedtupleFieldDefault f.1 d])).flatten
  | .prim _ _, d => [d]
  | .typeddict _ total ftys, d =>
    if validDefaultInstance d then
      match d with
      | .vdict entries =>
        (ftys.attach.map (fun f =>
          if isRecordTy f.1.ftype then
            collectLeafDefaults f.1.ftype
              ((entries.lookup f.1.fname).getD .missingProp)
          else
            [(entries.lookup f.1.fname).getD .missingProp])).flatten
      | _ => []
    else if total = false then
      if ftys.any (fun f =>
          (tryFieldListFromCallable f.ftype .missingNonprop).isFields) then
        []
      else
        ftys.map (fun _ => Value.excludeFromCall)
    else
      (ftys.attach.map (fun f =>
        if isRecordTy f.1.ftype then
          collectLeafDefaults f.1.ftype .missingProp
        else
          [Value.missingProp])).flatten
  | .tupleTy _, d => [d]
  | .tupleVar _, d => [d]
  | .listTy _, d => [d]
  | .dictTy, d => [d]
termination_by t _ => tySize t
decreasing_by
  · have h1 : f.1 ∈ fs := List.mem_of_mem_filter f.2
    have h2 := dcFieldSize_le_of_mem h1
    have h3 : tySize f.1.ftype < dcFieldSize f.1 := by
      rcases f with ⟨⟨n, t, dd, df, b, i⟩, hf⟩
      simp only [DCField.ftype, dcFieldSize]
      omega
    simp only [tySize]; omega
  · have h2 := ntFieldSize_le_of_mem f.2
    have h3 : tySize f.1.ftype < ntFieldSize f.1 := by
      rcases f with ⟨⟨n, t, dd⟩, hf⟩
      simp only [NTField.ftype, ntFieldSize]
      omega
    simp only [tySize]; omega
  · have h2 := tySize_ftype_lt_tdFieldsSize f.2
    simp only [tySize]; omega
  · have h2 := tySize_ftype_lt_tdFieldsSize f.2
    simp only [tySize]; omega

/-- No `total=False` TypedDict occurs among the record shapes reachable
through record-typed fields: the region of types on which the propagation
statement of claim C1 holds unconditionally. -/
def noPartialTypedDict : Ty → Bool
  | .dataclass _ fs =>
    (fs.filter (fun f => f.init)).attach.all (fun f =>
      if isRecordTy f.1.ftype then noPartialTypedDict f.1.ftype else true)
  | .namedtuple _ fs =>
    fs.attach.all (fun f =>
      if isRecordTy f.1.ftype then noPartialTypedDict f.1.ftype else true)
  | .typeddict _ total ftys =>
    total && ftys.attach.all (fun f =>
      if isRecordTy f.1.ftype then noPartialTypedDict f.1.ftype else true)
  | .prim _ _ => true
  | .tupleTy _ => true
  | .tupleVar _ => true
  | .listTy _ => true
  | .dictTy => true
termination_by t => tySize t
decreasing_by
  · have h1 : f.1 ∈ fs := List.mem_of_mem_filter f.2
    have h2 := dcFieldSize_le_of_mem h1
    have h3 : tySize f.1.ftype < dcFieldSize f.1 := by
      rcases f with ⟨⟨n, t, dd, df, b, i⟩, hf⟩
      simp only [DCField.ftype, dcFieldSize]
      omega
    simp only [tySize]; omega
  · have h2 := ntFieldSize_le_of_mem f.2
    have h3 : tySize f.1.ftype < ntFieldSize f.1 := by
      rcases f with ⟨⟨n, t, dd⟩, hf⟩
      simp only [NTField.ftype, ntFieldSize]
      omega
    simp only [tySize]; omega
  · have h2 := tySize_ftype_lt_tdFieldsSize f.2
    simp only [tySize]; omega

theorem getDataclassFieldDefault_missingProp (f : DCField) :
    getDataclassFieldDefault f .missingProp = .missingProp := rfl

theorem namedtupleFieldDefault_missingProp (f : NTField) :
    namedtupleFieldDefault f .missingProp = .missingProp := rfl

theorem noPartial_dataclass_field {name : String} {fs : List DCField}
    {f : DCField} (hnp : noPartialTypedDict (.dataclass name fs) = true)
    (hf : f ∈ fs.filter (fun f => f.init)) (hr : isRecordTy f.ftype = true) :
    noPartialTypedDict f.ftype = true := by
  rw [noPartialTypedDict] at hnp
  rw [List.all_eq_true] at hnp
  have h := hnp ⟨f, hf⟩ (List.mem_attach _ _)
  simp only at h
  simp only [hr, if_true] at h
  exact h

theorem noPartial_namedtuple_field {name : String} {fs : List NTField}
    {f : NTField} (hnp : noPartialTypedDict (.namedtuple name fs) = true)
    (hf : f ∈ fs) (hr : isRecordTy f.ftype = true) :
    noPartialTypedDict f.ftype = true := by
  rw [noPartialTypedDict] at hnp
  rw [List.all_eq_true] at hnp
  have h := hnp ⟨f, hf⟩ (List.mem_attach _ _)
  simp only at h
  simp only [hr, if_true] at h
  exact h

theorem noPartial_typeddict_parts {name : String} {total : Bool}
    {ftys : List TDField}
    (hnp : noPartialTypedDict (.typeddict name total ftys) = true) :
    total = true ∧ ∀ f ∈ ftys, isRecordTy f.ftype = true →
      noPartialTypedDict f.ftype = true := by
  rw [noPartialTypedDict] at hnp
  rw [Bool.and_eq_true] at hnp
  obtain ⟨h1, h2⟩ := hnp
  refine ⟨h1, ?_⟩
  intro f hf hr
  rw [List.all_eq_true] at h2
  have h := h2 ⟨f, hf⟩ (List.mem_attach _ _)
  simp only at h
  simp only [hr, if_true] at h
  exact h

theorem collectLeafDefaults_missingProp_or_excluded :
    ∀ (t : Ty) (v : Value), v ∈ collectLeafDefaults t .missingProp →
      v = .missingProp ∨ v = .excludeFromCall := by
  have main : ∀ (n : Nat) (t : Ty), tySize t ≤ n →
      ∀ (v : Value), v ∈ collectLeafDefaults t .missingProp →
        v = .missingProp ∨ v = .excludeFromCall := by
    intro n
    induction n with
    | zero =>
      intro t ht
      have := tySize_pos t
      omega
    | succ n ih =>
      intro t ht v hv
      cases t with
      | dataclass name fs =>
        rw [collectLeafDefaults] at hv
        simp only [List.mem_flatten, List.mem_map, List.mem_attach, true_and,
          Subtype.exists] at hv
        obtain ⟨l, ⟨f, hf, rfl⟩, hvl⟩ := hv
        rw [getDataclassFieldDefault_missingProp] at hvl
        by_cases hr : isRecordTy f.ftype = true
        · rw [if_pos hr] at hvl
          have h1 : f ∈ fs := List.mem_of_mem_filter hf
          have h2 := dcFieldSize_le_of_mem h1
          have h3 : tySize f.ftype < dcFieldSize f := by
            rcases f with ⟨fn, t, dd, df, b, i⟩
            simp only [DCField.ftype, dcFieldSize]
            omega
          have h4 : tySize (Ty.dataclass name fs) ≤ n + 1 := ht
          have h5 : tySize f.ftype ≤ n := by
            simp only [tySize] at h4
            omega
          exact ih f.ftype h5 v hvl
        · rw [if_neg hr] at hvl
          simp only [List.mem_singleton] at hvl
          exact Or.inl hvl
      | namedtuple name fs =>
        rw [collectLeafDefaults] at hv
        simp only [List.mem_flatten, List.mem_map, List.mem_attach, true_and,
          Subtype.exists] at hv
        obtain ⟨l, ⟨f, hf, rfl⟩, hvl⟩ := hv
        rw [namedtupleFieldDefault_missingProp] at hvl
        by_cases hr : isRecordTy f.ftype = true
        · rw [if_pos hr] at hvl
          have h2 := ntFieldSize_le_of_mem hf
          have h3 : tySize f.ftype < ntFieldSize f := by
            rcases f with ⟨fn, t, dd⟩
            simp only [NTField.ftype, ntFieldSize]
            omega
          have h5 : tySize f.ftype ≤ n := by
            have h4 : tySize (Ty.namedtuple name fs) ≤ n + 1 := ht
            simp only [tySize] at h4
            omega
          exact ih f.ftype h5 v hvl
        · rw [if_neg hr] at hvl
          simp only [List.mem_singleton] at hvl
          exact Or.inl hvl
      | typeddict nm total ftys =>
        rw [collectLeafDefaults] at hv
        · rw [if_neg (by decide : ¬ (validDefaultInstance Value.missingProp = true))] at hv
          cases total with
          | false =>
            rw [if_pos rfl] at hv
            split at hv
            · simp at hv
            · simp only [List.mem_map] at hv
              obtain ⟨f, hf, hvp⟩ := hv
              exact Or.inr hvp.symm
          | true =>
            rw [if_neg (by decide : ¬ (true = false))] at hv
            simp only [List.mem_flatten, List.mem_map, List.mem_attach, true_and,
              Subtype.exists] at hv
            obtain ⟨l, ⟨f, hf, rfl⟩, hvl⟩ := hv
            by_cases hr : isRecordTy f.ftype = true
            · rw [if_pos hr] at hvl
              have h4 := tySize_ftype_lt_tdFieldsSize hf
              have h5 : tySize f.ftype ≤ n := by
                have h6 : tySize (Ty.typeddict nm true ftys) ≤ n + 1 := ht
                simp only [tySize] at h6
                omega
              exact ih f.ftype h5 v hvl
            · rw [if_neg hr] at hvl
              simp only [List.mem_singleton] at hvl
              exact Or.inl hvl
        · intro entries hh
          cases hh
      | prim nm k =>
        rw [collectLeafDefaults] at hv
        simp only [List.mem_singleton] at hv
        exact Or.inl hv
      | tupleTy cs =>
        rw [collectLeafDefaults] at hv
        simp only [List.mem_singleton] at hv
        exact Or.inl hv
      | tupleVar e =>
        rw [collectLeafDefaults] at hv
        simp only [List.mem_singleton] at hv
        exact Or.inl hv
      | listTy e =>
        rw [collectLeafDefaults] at hv
        simp only [List.mem_singleton] at hv
        exact Or.inl hv
      | dictTy =>
        rw [collectLeafDefaults] at hv
        simp only [List.mem_singleton] at hv
        exact Or.inl hv
  intro t v hv
  exact main (tySize t) t le_rfl v hv

theorem collectLeafDefaults_noPartial_missingProp :
    ∀ (t : Ty), noPartialTypedDict t = true →
      ∀ (v : Value), v ∈ collectLeafDefaults t .missingProp →
        v = .missingProp := by
  have main : ∀ (n : Nat) (t : Ty), tySize t ≤ n →
      noPartialTypedDict t = true →
      ∀ (v : Value), v ∈ collectLeafDefaults t .missingProp →
        v = .missingProp := by
    intro n
    induction n with
    | zero =>
      intro t ht
      have := tySize_pos t
      omega
    | succ n ih =>
      intro t ht hnp v hv
      cases t with
      | dataclass name fs =>
        rw [collectLeafDefaults] at hv
        simp only [List.mem_flatten, List.mem_map, List.mem_attach, true_and,
          Subtype.exists] at hv
        obtain ⟨l, ⟨f, hf, rfl⟩, hvl⟩ := hv
        rw [getDataclassFieldDefault_missingProp] at hvl
        by_cases hr : isRecordTy f.ftype = true
        · rw [if_pos hr] at hvl
          have h1 : f ∈ fs := List.mem_of_mem_filter hf
          have h2 := dcFieldSize_le_of_mem h1
          have h3 : tySize f.ftype < dcFieldSize f := by
            rcases f with ⟨fn, t, dd, df, b, i⟩
            simp only [DCField.ftype, dcFieldSize]
            omega
          have h4 : tySize (Ty.dataclass name fs) ≤ n + 1 := ht
          have h5 : tySize f.ftype ≤ n := by
            simp only [tySize] at h4
            omega
          exact ih f.ftype h5 (noPartial_dataclass_field hnp hf hr) v hvl
        · rw [if_neg hr] at hvl
          simpa using hvl
      | namedtuple name fs =>
        rw [collectLeafDefaults] at hv
        simp only [List.mem_flatten, List.mem_map, List.mem_attach, true_and,
          Subtype.exists] at hv
        obtain ⟨l, ⟨f, hf, rfl⟩, hvl⟩ := hv
        rw [namedtupleFieldDefault_missingProp] at hvl
        by_cases hr : isRecordTy f.ftype = true
        · rw [if_pos hr] at hvl
          have h2 := ntFieldSize_le_of_mem hf
          have h3 : tySize f.ftype < ntFieldSize f := by
            rcases f with ⟨fn, t, dd⟩
            simp only [NTField.ftype, ntFieldSize]
            omega
          have h5 : tySize f.ftype ≤ n := by
            have h4 : tySize (Ty.namedtuple name fs) ≤ n + 1 := ht
            simp only [tySize] at h4
            omega
          exact ih f.ftype h5 (noPartial_namedtuple_field hnp hf hr) v hvl
        · rw [if_neg hr] at hvl
          simpa using hvl
      | typeddict nm total ftys =>
        obtain ⟨htot, hall⟩ := noPartial_typeddict_parts hnp
        subst htot
        rw [collectLeafDefaults] at hv
        · rw [if_neg (by decide : ¬ (validDefaultInstance Value.missingProp = true))] at hv
          rw [if_neg (by decide : ¬ (true = false))] at hv
          simp only [List.mem_flatten, List.mem_map, List.mem_attach, true_and,
            Subtype.exists] at hv
          obtain ⟨l, ⟨f, hf, rfl⟩, hvl⟩ := hv
          by_cases hr : isRecordTy f.ftype = true
          · rw [if_pos hr] at hvl
            have h4 := tySize_ftype_lt_tdFieldsSize hf
            have h5 : tySize f.ftype ≤ n := by
              have h6 : tySize (Ty.typeddict nm true ftys) ≤ n + 1 := ht
              simp only [tySize] at h6
              omega
            exact ih f.ftype h5 (hall f hf hr) v hvl
          · rw [if_neg hr] at hvl
            simpa using hvl
        · intro entries hh
          cases hh
      | prim nm k =>
        rw [collectLeafDefaults] at hv
        simpa using hv
      | tupleTy cs =>
        rw [collectLeafDefaults] at hv
        simpa using hv
      | tupleVar e =>
        rw [collectLeafDefaults] at hv
        simpa using hv
      | listTy e =>
        rw [collectLeafDefaults] at hv
        simpa using hv
      | dictTy =>
        rw [collectLeafDefaults] at hv
        simpa using hv
  intro t hnp v hv
  exact main (tySize t) t le_rfl hnp v hv

/-! ## Shared concrete example types -/

/-- The builtin `int` annotation (allow-listed). -/
def tyInt : Ty := .prim ("int") true

/-- A minimal dataclass `Inner` with one required `int` field that declares
a field-level default of 7. -/
def innerC1 : Ty :=
  .dataclass ("Inner") [.mk ("y") tyInt (.vint 7) none false true]

/-- A dataclass `Outer` nesting `Inner` plus one scalar field with a
declared default. -/
def outerC1 : Ty :=
  .dataclass ("Outer")
    [.mk ("inner") innerC1 .dcMissing none false true,
     .mk ("lab") tyInt (.vint 2) none false true]

/-- A minimal nested record used when a decomposable element type is
needed. -/
def dcSimple : Ty :=
  .dataclass ("A") [.mk ("x") tyInt .dcMissing none false true]

theorem isNested_dcSimple : isNestedType dcSimple .missingNonprop = true := by
  rw [isNestedType_def, tryFieldListFromCallable.eq_def]
  rfl

theorem isNested_tyInt : isNestedType tyInt .missingNonprop = false := by
  rw [isNestedType_def, tryFieldListFromCallable.eq_def]
  rfl

/-! ## Claim C1 -/

/-- A `total=False` TypedDict with one `int` field, refuting claim C1 as
frozen. -/
def tdPartialC1 : Ty := .typeddict ("Partial") false [.mk ("a") tyInt]

theorem typeddict_false_leaf_fields {name : String} {ftys : List TDField}
    {d : Value} (hd : validDefaultInstance d = false)
    (hall : ∀ ft ∈ ftys, isNestedType ft.ftype .missingNonprop = false) :
    tryFieldListFromCallable (.typeddict name false ftys) d =
      .fields (ftys.map fun ft =>
        simpleFD ft.fname ft.ftype .excludeFromCall none) := by
  rw [tryFieldListFromCallable.eq_def]
  simp only [hd, Bool.false_eq_true, if_false, if_true, isFields_match,
    ← isNestedType_def]
  have hany : (ftys.attach.any fun ft =>
      isNestedType ft.1.ftype .missingNonprop) = false := by
    rw [List.any_eq_false]
    intro ft _
    simp [hall ft.1 ft.2]
  rw [hany]
  rfl

theorem collectLeafDefaults_typeddict_false {name : String}
    {ftys : List TDField}
    (h : (ftys.any fun f =>
        (tryFieldListFromCallable f.ftype .missingNonprop).isFields) = false) :
    collectLeafDefaults (.typeddict name false ftys) .missingProp =
      ftys.map (fun _ => Value.excludeFromCall) := by
  rw [collectLeafDefaults]
  · rw [if_neg (by decide : ¬ (validDefaultInstance Value.missingProp = true))]
    rw [if_pos rfl]
    rw [h]
    rfl
  · intro entries hh
    cases hh

/-- Counterexample to claim C1 as frozen: a `total=False` TypedDict is a
record type by the glossary, yet resolved with the Propagating-Missing
parent default its child field definition carries the Excluded sentinel,
not Propagating-Missing, both in the classifier field list and at the
collected leaf. -/
theorem c1_counterexample :
    tryFieldListFromCallable tdPartialC1 .missingProp =
      .fields [simpleFD ("a") tyInt .excludeFromCall none] ∧
    collectLeafDefaults tdPartialC1 .missingProp = [.excludeFromCall] ∧
    ((Value.excludeFromCall = Value.missingProp) → False) := by
  refine ⟨?_, ?_, ?_⟩
  · exact typeddict_false_leaf_fields rfl (by
      intro ft hft
      simp only [List.mem_singleton] at hft
      subst hft
      exact isNested_tyInt)
  · refine Eq.trans (collectLeafDefaults_typeddict_false ?_) rfl
    simp only [List.any_cons, List.any_nil, Bool.or_false, TDField.ftype]
    rw [← isNestedType_def]
    exact isNested_tyInt
  · intro h
    cases h

/-- Claim C1 as amended: with a Propagating-Missing parent default, the
dataclass rule `_get_dataclass_field_default`, the NamedTuple listing, the
dataclass listing and the `total=True` TypedDict listing give every child
field definition the Propagating-Missing default regardless of field-level
declared defaults or factories, and the propagation continues through
nesting; but a `total=False` TypedDict resolved without a concrete default
gives every one of its fields the Excluded sentinel instead.  Hence every
reachable leaf default is Propagating-Missing or Excluded, and it is
Propagating-Missing whenever no `total=False` TypedDict is reachable
through record-typed fields. -/
theorem c1_amended_propagating_missing :
    (∀ (f : DCField), getDataclassFieldDefault f .missingProp = .missingProp) ∧
    (∀ (f : NTField), namedtupleFieldDefault f .missingProp = .missingProp) ∧
    (∀ (name : String) (fs : List NTField) (fd : FieldDefinition) (l : List FieldDefinition),
      tryFieldListFromCallable (.namedtuple name fs) .missingProp = .fields l →
      fd ∈ l → fd.default = .missingProp) ∧
    (∀ (name : String) (fs : List DCField) (fd : FieldDefinition) (l : List FieldDefinition),
      tryFieldListFromCallable (.dataclass name fs) .missingProp = .fields l →
      fd ∈ l → fd.default = .missingProp) ∧
    (∀ (name : String) (fs : List TDField) (fd : FieldDefinition) (l : List FieldDefinition),
      tryFieldListFromCallable (.typeddict name true fs) .missingProp = .fields l →
      fd ∈ l → fd.default = .missingProp) ∧
    (∀ (name : String) (fs : List TDField) (fd : FieldDefinition) (l : List FieldDefinition),
      tryFieldListFromCallable (.typeddict name false fs) .missingProp = .fields l →
      fd ∈ l → fd.default = .excludeFromCall) ∧
    (∀ (t : Ty) (v : Value),
      v ∈ collectLeafDefaults t .missingProp →
        v = .missingProp ∨ v = .excludeFromCall) ∧
    (∀ (t : Ty), noPartialTypedDict t = true →
      ∀ (v : Value), v ∈ collectLeafDefaults t .missingProp →
        v = .missingProp) := by
  refine ⟨fun f => rfl, fun f => rfl, ?_, ?_, ?_, ?_,
    collectLeafDefaults_missingProp_or_excluded,
    collectLeafDefaults_noPartial_missingProp⟩
  · intro name fs fd l hl hfd
    rw [tryFieldListFromCallable.eq_def] at hl
    simp only [FLResult.fields.injEq] at hl
    subst hl
    simp only [List.mem_map] at hfd
    obtain ⟨f, _, rfl⟩ := hfd
    rfl
  · intro name fs fd l hl hfd
    rw [tryFieldListFromCallable.eq_def] at hl
    simp only [FLResult.fields.injEq] at hl
    subst hl
    simp only [List.mem_map] at hfd
    obtain ⟨f, _, rfl⟩ := hfd
    rfl
  · intro name fs fd l hl hfd
    rw [tryFieldListFromCallable.eq_def] at hl
    simp only [] at hl
    rw [if_neg (by decide : ¬ (validDefaultInstance Value.missingProp = true))] at hl
    rw [if_neg (by decide : ¬ (true = false))] at hl
    simp only [FLResult.fields.injEq] at hl
    subst hl
    simp only [List.mem_map] at hfd
    obtain ⟨f, _, rfl⟩ := hfd
    rfl
  · intro name fs fd l hl hfd
    rw [tryFieldListFromCallable.eq_def] at hl
    simp only [] at hl
    rw [if_neg (by decide : ¬ (validDefaultInstance Value.missingProp = true))] at hl
    split at hl
    · split at hl
      · simp at hl
      · simp only [FLResult.fields.injEq] at hl
        subst hl
        simp only [List.mem_map] at hfd
        obtain ⟨f, _, rfl⟩ := hfd
        rfl
    · rename_i hcond
      simp at hcond

/-- Witness for the amended C1 at a concrete two-level record: `Outer`
reaches no `total=False` TypedDict, and both reachable leaves (one through
the nested `Inner`, ignoring the declared defaults 7 and 2) resolve to the
Propagating-Missing sentinel. -/
theorem c1_witness :
    noPartialTypedDict outerC1 = true ∧
    (collectLeafDefaults outerC1 .missingProp = [.missingProp, .missingProp]) ∧
    (∀ v ∈ collectLeafDefaults outerC1 .missingProp, v = .missingProp) := by
  have hnpInner : noPartialTypedDict innerC1 = true := by
    rw [noPartialTypedDict.eq_def]
    rfl
  have hnpOuter : noPartialTypedDict outerC1 =
      (noPartialTypedDict innerC1 && (true && true)) := by
    rw [noPartialTypedDict.eq_def]
    rfl
  have hnp : noPartialTypedDict outerC1 = true := by
    rw [hnpOuter, hnpInner]
    rfl
  have heval : collectLeafDefaults outerC1 .missingProp =
      [.missingProp, .missingProp] := by
    have hinner : collectLeafDefaults innerC1 .missingProp = [.missingProp] := by
      rw [collectLeafDefaults.eq_def]
      rfl
    have houter : collectLeafDefaults outerC1 .missingProp =
        collectLeafDefaults innerC1 .missingProp ++ [.missingProp] := by
      rw [collectLeafDefaults.eq_def]
      rfl
    rw [houter, hinner]
    rfl
  refine ⟨hnp, heval, ?_⟩
  intro v hv
  exact c1_amended_propagating_missing.2.2.2.2.2.2.2 outerC1 hnp v hv

/-! ## Claim C4 -/

/-- Claim C4: constructing a field definition whose markers include Fixed
or Suppress while the default is a missing sentinel is a hard error, and
every successfully constructed field definition satisfies the invariant
that Fixed or Suppress in the markers implies a non-missing default. -/
theorem c4_fixed_suppress_invariant :
    ∀ (name : String) (typ : Ty) (default : Value) (help : Option String)
      (co : Option String) (markers : List Marker),
      ((Marker.fixed ∈ markers ∨ Marker.suppress ∈ markers) →
        isMissingSingleton default = true →
        FieldDefinition.make name typ default help co markers =
          .error ("Field is missing a default value!")) ∧
      (∀ fd, FieldDefinition.make name typ default help co markers = .ok fd →
        (Marker.fixed ∈ fd.markers ∨ Marker.suppress ∈ fd.markers) →
        isMissingSingleton fd.default = false) := by
  intro name typ default help co markers
  constructor
  · intro hm hd
    rw [FieldDefinition.make, if_pos ⟨hm, hd⟩]
  · intro fd hok hm
    rw [FieldDefinition.make] at hok
    by_cases hc : (Marker.fixed ∈ markers ∨ Marker.suppress ∈ markers) ∧
        isMissingSingleton default = true
    · rw [if_pos hc] at hok
      exact absurd hok (by simp)
    · rw [if_neg hc] at hok
      simp only [Except.ok.injEq] at hok
      subst hok
      simp only at hm ⊢
      rcases Bool.eq_false_or_eq_true (isMissingSingleton default) with h | h
      · exact absurd ⟨hm, h⟩ hc
      · exact h

/-- Witness for C4: a Fixed-marked field with a Propagating-Missing default
raises, and a Fixed-marked field with a concrete default is constructed and
satisfies the invariant. -/
theorem c4_witness :
    FieldDefinition.make ("a") tyInt .missingProp none none [Marker.fixed] =
      .error ("Field is missing a default value!") :=
  (c4_fixed_suppress_invariant ("a") tyInt .missingProp none none
    [Marker.fixed]).1 (Or.inl (List.mem_singleton.mpr rfl)) rfl

/-! ## Claim C5 -/

/-- Claim C5: a variable-length homogeneous container with no default
instance resolves to non-decomposable (a single leaf, never an error) when
its element type is not itself decomposable, and raises the hard
`UnsupportedTypeAnnotationError` when the element type is a decomposable
nested record. -/
theorem c5_varlen_container_no_default :
    ∀ (elem : Ty) (d : Value), isMissingSingleton d = true →
      (isNestedType elem .missingNonprop = false →
        tryFieldListFromCallable (.listTy (some elem)) d =
          .unsupported seqDirectMsg) ∧
      (isNestedType elem .missingNonprop = true →
        tryFieldListFromCallable (.listTy (some elem)) d =
          .raised varLenNeedsDefaultMsg) := by
  intro elem d hd
  constructor
  · intro hn
    rw [isNestedType_def] at hn
    rw [tryFieldListFromCallable.eq_def]
    simp only [hd, if_true]
    cases hr : tryFieldListFromCallable elem .missingNonprop with
    | fields fs =>
      rw [hr] at hn
      exact absurd hn (by simp [FLResult.isFields])
    | unsupported m => simp [hr]
    | raised m => simp [hr]
  · intro hn
    rw [isNestedType_def] at hn
    rw [tryFieldListFromCallable.eq_def]
    simp only [hd, if_true]
    cases hr : tryFieldListFromCallable elem .missingNonprop with
    | fields fs => simp [hr]
    | unsupported m =>
      rw [hr] at hn
      exact absurd hn (by simp [FLResult.isFields])
    | raised m =>
      rw [hr] at hn
      exact absurd hn (by simp [FLResult.isFields])

/-- Witness for C5: with no default, a list of ints is a single leaf while
a list of a nested dataclass raises. -/
theorem c5_witness :
    tryFieldListFromCallable (.listTy (some tyInt)) .missingProp =
      .unsupported seqDirectMsg ∧
    tryFieldListFromCallable (.listTy (some dcSimple)) .missingProp =
      .raised varLenNeedsDefaultMsg :=
  ⟨(c5_varlen_container_no_default tyInt .missingProp rfl).1 isNested_tyInt,
   (c5_varlen_container_no_default dcSimple .missingProp rfl).2 isNested_dcSimple⟩

/-! ## Claim C8 -/

/-- Membership in the fixed allow-list `_known_parsable_types`
(src/tyro/_fields.py lines 197-207): the set of hashable members of
`__builtins__`, `typing`, `typing_extensions` and `collections.abc`.  The
builtin container classes `tuple`, `list`, `set`, `dict` and the `typing`
aliases over them are members; user-defined record classes (dataclasses,
NamedTuples, TypedDicts) are not.  For a plain class the `known` flag of
`Ty.prim` records membership. -/
def inKnownParsableTypes : Ty → Bool
  | .prim _ known => known
  | .tupleTy _ => true
  | .tupleVar _ => true
  | .listTy _ => true
  | .dictTy => true
  | _ => false

/-- Counterexample to claim C8 as stated: `dict` is in the allow-list, yet
classification of `dict` with the default instance `{"k": 1}` is handled by
the mapping branch before the allow-list check and yields a field list (the
type decomposes), not a direct leaf. -/
theorem c8_counterexample :
    inKnownParsableTypes .dictTy = true ∧
    (tryFieldListFromCallable .dictTy (.vdict [(("k"), .vint 1)])).isFields
      = true ∧
    tryFieldListFromCallable .dictTy (.vdict [(("k"), .vint 1)]) =
      .fields [simpleFD ("k") (.prim ("int") true) (.vint 1) (some ("k"))] := by
  refine ⟨rfl, ?_, ?_⟩ <;>
    (rw [tryFieldListFromCallable.eq_def]; rfl)

/-- Claim C8 as amended: the allow-list short circuit applies at the
general-cases stage of `_try_field_list_from_callable`, after the record
and container shapes have been dispatched; every allow-listed plain class
that is not one of the specially handled container shapes is always treated
as a direct leaf, for every default instance.  (Allow-listed container
classes such as `dict`, `tuple`, `list` are instead handled by their own
container branches, which may decompose them, as the counterexample
shows.) -/
theorem c8_amended_known_types_leaf :
    ∀ (name : String) (d : Value),
      tryFieldListFromCallable (.prim name true) d =
        .unsupported knownParsableMsg := by
  intro name d
  rw [tryFieldListFromCallable.eq_def]
  rfl

/-! ## Claim C9 -/

/-- The concrete field and parent instance refuting claim C9 as stated: a
field with declared default 3 and a parent default instance that lacks the
attribute. -/
def exFieldC9 : DCField := .mk ("x") tyInt (.vint 3) none false true

/-- A concrete parent instance with no attributes. -/
def exParentC9 : Value := .vrecord (.dataclass ("P") []) []

/-- Counterexample to claim C9 as stated: when the supplied concrete parent
default lacks the attribute, the advisory warning fires, but resolution
falls back to the declared default of the field (3 here), not to a missing
sentinel. -/
theorem c9_counterexample :
    missingAttributeWarning exFieldC9 exParentC9 = true ∧
    getDataclassFieldDefault exFieldC9 exParentC9 = .vint 3 ∧
    isMissingSingleton (.vint 3) = false :=
  ⟨rfl, rfl, rfl⟩

/-- Claim C9 as amended: for every record field where the supplied concrete
(non-missing, non-None) parent default instance lacks the expected
attribute, resolution emits the advisory warning and falls back to the
declared-default resolution of the field itself, exactly as if no parent default
had been supplied; the resulting default is a missing sentinel only when
the field declares neither a default nor a default factory. -/
theorem c9_amended_missing_attribute_fallback :
    ∀ (f : DCField) (parent : Value),
      isMissingSingleton parent = false →
      isVNone parent = false →
      hasattrGet parent f.fname = none →
      missingAttributeWarning f parent = true ∧
      getDataclassFieldDefault f parent =
        getDataclassFieldDefault f .missingNonprop ∧
      (isMissingSingleton f.default = true → f.defaultFactory = none →
        getDataclassFieldDefault f parent = .missingNonprop) := by
  intro f parent h1 h2 h3
  refine ⟨?_, ?_, ?_⟩
  · cases parent <;>
      simp_all [missingAttributeWarning, isMissingSingleton, isVNone]
  · cases parent <;>
      simp_all [getDataclassFieldDefault, isMissingSingleton, isVNone]
  · intro h4 h5
    cases parent <;>
      simp_all [getDataclassFieldDefault, isMissingSingleton, isVNone]

/-- Witness for the amended C9 at the concrete field and parent of the
counterexample. -/
theorem c9_witness :
    missingAttributeWarning exFieldC9 exParentC9 = true ∧
    getDataclassFieldDefault exFieldC9 exParentC9 =
      getDataclassFieldDefault exFieldC9 .missingNonprop :=
  ⟨(c9_amended_missing_attribute_fallback exFieldC9 exParentC9 rfl rfl rfl).1,
   (c9_amended_missing_attribute_fallback exFieldC9 exParentC9 rfl rfl rfl).2.1⟩

/-! ## Claim C10 -/

/-- Claim C10: for a TypedDict declared with `total=False` and resolved
without a concrete default instance, every field default becomes the
Excluded sentinel, and if any field type is itself decomposable resolution
raises a hard error instead. -/
theorem c10_typeddict_total_false :
    ∀ (name : String) (ftys : List TDField) (d : Value),
      validDefaultInstance d = false →
      ((∀ ft ∈ ftys, isNestedType ft.ftype .missingNonprop = false) →
        tryFieldListFromCallable (.typeddict name false ftys) d =
          .fields (ftys.map fun ft =>
            simpleFD ft.fname ft.ftype .excludeFromCall none)) ∧
      ((∃ ft ∈ ftys, isNestedType ft.ftype .missingNonprop = true) →
        tryFieldListFromCallable (.typeddict name false ftys) d =
          .raised totalFalseMsg) := by
  intro name ftys d hd
  rw [tryFieldListFromCallable.eq_def]
  simp only [hd, Bool.false_eq_true, if_false, if_true, isFields_match,
    ← isNestedType_def]
  constructor
  · intro hall
    have hany : (ftys.attach.any fun ft =>
        isNestedType ft.1.ftype .missingNonprop) = false := by
      rw [List.any_eq_false]
      intro ft _
      simp [hall ft.1 ft.2]
    rw [hany]
    rfl
  · intro hex
    obtain ⟨ft, hft, hnested⟩ := hex
    have hany : (ftys.attach.any fun ft =>
        isNestedType ft.1.ftype .missingNonprop) = true := by
      rw [List.any_eq_true]
      exact ⟨⟨ft, hft⟩, List.mem_attach _ _, hnested⟩
    rw [hany]
    rfl

/-- Witness for C10: a `total=False` TypedDict of one `int` field resolves
to a single excluded field, and one with a nested dataclass field raises. -/
theorem c10_witness :
    tryFieldListFromCallable (.typeddict ("TD") false [.mk ("a") tyInt])
        .missingProp =
      .fields [simpleFD ("a") tyInt .excludeFromCall none] ∧
    tryFieldListFromCallable (.typeddict ("TD") false [.mk ("a") dcSimple])
        .missingProp =
      .raised totalFalseMsg :=
  ⟨(c10_typeddict_total_false ("TD") [.mk ("a") tyInt] .missingProp rfl).1
      (by
        intro ft hft
        simp only [List.mem_singleton] at hft
        subst hft
        exact isNested_tyInt),
   (c10_typeddict_total_false ("TD") [.mk ("a") dcSimple] .missingProp rfl).2
      ⟨.mk ("a") dcSimple, List.mem_singleton.mpr rfl, isNested_dcSimple⟩⟩

/-! ## Model B: data model for `src/dcargs/_parsers.py` -/

/-- A type annotation as `ParserDefinition.from_dataclass` inspects one:
a plain leaf class, `None` (the type of `None` inside unions), a generic
type variable, a reference to a dataclass by name (optionally subscripted
with type arguments, as in `Point[float]`), or a `Union[...]`. -/
inductive FTy where
  | leaf (name : String)
  | noneTy
  | tyvar (v : String)
  | dcRef (name : String) (args : List FTy)
  | unionTy (arms : List FTy)

mutual

/-- Python `==` on annotations (used only through `pySeqEq`). -/
def ftyBEq : FTy → FTy → Bool
  | .leaf a, .leaf b => a == b
  | .noneTy, .noneTy => true
  | .tyvar a, .tyvar b => a == b
  | .dcRef a as, .dcRef b bs => a == b && ftyListBEq as bs
  | .unionTy as, .unionTy bs => ftyListBEq as bs
  | _, _ => false

/-- Elementwise `ftyBEq`. -/
def ftyListBEq : List FTy → List FTy → Bool
  | [], [] => true
  | a :: as, b :: bs => ftyBEq a b && ftyListBEq as bs
  | _, _ => false

end

/-- The runtime kind of a Python sequence: `tuple` (such as
`field.type.__args__`) or `list` (such as a list comprehension). -/
inductive PySeqKind where
  | tup
  | lst
deriving DecidableEq

/-- Python `==` between two sequences: a tuple and a list never compare
equal, whatever their elements; sequences of the same kind compare
elementwise.  This models the comparison
`options == options_no_none` of `from_dataclass` (line 139), whose left
side is the tuple `field.type.__args__` and whose right side is a list. -/
def pySeqEq : PySeqKind × List FTy → PySeqKind × List FTy → Bool
  | (k1, l1), (k2, l2) => k1 == k2 && ftyListBEq l1 l2

/-- One dataclass field as the dcargs resolver reports it: name, resolved
annotation, `init` flag. -/
structure DcField where
  fname : String
  ftype : FTy
  finit : Bool

/-- One dataclass declaration: generic parameters and fields. -/
structure DcDef where
  params : List String
  fields : List DcField

/-- The class environment standing for the reflection abstraction (spec
section 6): dataclass declarations by name.  `_resolver.is_dataclass`,
`resolve_generic_dataclasses` and `resolved_fields` are the external
resolver collaborators; they are interpreted over this environment. -/
def Env : Type := List (String × DcDef)

/-- Test `o == type(None)` used to drop the null arm. -/
def isNoneFTy : FTy → Bool
  | .noneTy => true
  | _ => false

/-- Predicate `_resolver.is_dataclass(field.type)`: a (possibly subscripted)
reference to a declared dataclass. -/
def isDataclassFieldTy (env : Env) : FTy → Bool
  | .dcRef n _ => (List.lookup n env).isSome
  | _ => false

/-- The union-subcommand condition of `from_dataclass` (lines 115-121):
at least two non-null arms, all dataclasses. -/
def unionQualifies (env : Env) (arms : List FTy) : Bool :=
  decide (2 ≤ (arms.filter (fun a => !(isNoneFTy a))).length) &&
    (arms.filter (fun a => !(isNoneFTy a))).all (isDataclassFieldTy env)

/-- Tag `option.__name__` for a dataclass union arm. -/
def armNameOpt : FTy → Option String
  | .dcRef n _ => some n
  | _ => none

/-- An argument produced for one leaf field (`ArgumentDefinition` as far
as the claims inspect it: its dotted name and its resolved type). -/
structure Arg where
  aname : String
  atype : FTy

mutual

/-- Record `ParserDefinition`: argument list plus optional subparsers.  The
`description` string and the write-only `role_from_field` map carried by
the source record are not inspected by any claim and are omitted. -/
inductive Parser where
  | mk (args : List Arg) (subs : Option Subp)

/-- Record `SubparsersDefinition`: name, required flag, and the ordered mapping
from variant tag to parser (a Python dict preserving insertion order,
embedded as an association list). -/
inductive Subp where
  | mk (sname : String) (required : Bool) (parsers : List (String × Parser))

end

/-- Arguments of a parser. -/
def Parser.args : Parser → List Arg
  | .mk a _ => a

/-- Subparsers of a parser. -/
def Parser.subs : Parser → Option Subp
  | .mk _ s => s

/-- Name of a subparsers group. -/
def Subp.sname : Subp → String
  | .mk n _ _ => n

/-- Required flag of a subparsers group. -/
def Subp.required : Subp → Bool
  | .mk _ r _ => r

/-- Tag-to-parser mapping of a subparsers group. -/
def Subp.parsers : Subp → List (String × Parser)
  | .mk _ _ p => p

/-- Errors raised by `from_dataclass`: the entry assertion
`assert _resolver.is_dataclass(cls)`, the cyclic-dependency assertion
(line 76), and the one-subparser-group assertions (lines 108 and 122). -/
inductive PErr where
  | notDataclass
  | cyclic (name : String)
  | multipleSubparsers (name : String)
deriving DecidableEq

/-- Lines 71-74 of `from_dataclass`: resolve each value of the freshly
computed substitution map through the parent map when that value is a type
variable bound there. -/
def composeWithParent (pm : Option (List (String × FTy)))
    (tf : List (String × FTy)) : List (String × FTy) :=
  match pm with
  | none => tf
  | some parent =>
    tf.map (fun p =>
      match p.2 with
      | .tyvar w =>
        match List.lookup w parent with
        | some c => (p.1, c)
        | none => p
      | _ => p)

/-- Modelled from the spec: `ArgumentDefinition.make_from_field` of
`_arguments.py` is not under `src/`; per spec 4.2/6.3 it renders the leaf
field with its annotation resolved through the substitution map. -/
def makeArgFromField (tf : List (String × FTy)) (f : DcField) : Arg :=
  { aname := f.fname
    atype :=
      match f.ftype with
      | .tyvar v => (List.lookup v tf).getD (.tyvar v)
      | t => t }

/-- Modelled from the spec: `_strings.NESTED_DATACLASS_DELIMETER` is not
under `src/`; spec 4.4 writes nested names as parent-delimiter-child. -/
def nestedDelim : String := "."

/-- Number of environment class names not yet on the recursion path (the
termination measure of `from_dataclass`). -/
def remainingCount (env : Env) (parents : List String) : Nat :=
  ((env.map Prod.fst).filter (fun x => !(parents.contains x))).length

theorem filter_length_mono {α : Type} (p q : α → Bool) (l : List α)
    (himp : ∀ x, q x = true → p x = true) :
    (l.filter q).length ≤ (l.filter p).length := by
  induction l with
  | nil => simp
  | cons x xs ih =>
    cases hq : q x
    · rw [List.filter_cons_of_neg (by simp [hq])]
      cases hp : p x
      · rw [List.filter_cons_of_neg (by simp [hp])]
        exact ih
      · rw [List.filter_cons_of_pos hp]
        simp only [List.length_cons]
        omega
    · rw [List.filter_cons_of_pos (himp x hq), List.filter_cons_of_pos hq]
      simp only [List.length_cons]
      omega

theorem filter_length_strict {α : Type} (p q : α → Bool) (l : List α)
    (himp : ∀ x, q x = true → p x = true) :
    ∀ a ∈ l, p a = true → q a = false →
      (l.filter q).length < (l.filter p).length := by
  induction l with
  | nil => intro a ha; cases ha
  | cons x xs ih =>
    intro a ha hpa hqa
    rcases List.mem_cons.mp ha with rfl | ha2
    · rw [List.filter_cons_of_pos hpa, List.filter_cons_of_neg (by simp [hqa])]
      have := filter_length_mono p q xs himp
      simp only [List.length_cons]
      omega
    · cases hq : q x
      · rw [List.filter_cons_of_neg (by simp [hq])]
        cases hp : p x
        · rw [List.filter_cons_of_neg (by simp [hp])]
          exact ih a ha2 hpa hqa
        · rw [List.filter_cons_of_pos hp]
          have := ih a ha2 hpa hqa
          simp only [List.length_cons]
          omega
      · rw [List.filter_cons_of_pos (himp x hq), List.filter_cons_of_pos hq]
        have := ih a ha2 hpa hqa
        simp only [List.length_cons]
        omega

theorem mem_keys_of_lookup {env : Env} {n : String} {d : DcDef}
    (h : List.lookup n env = some d) : n ∈ env.map Prod.fst := by
  induction env with
  | nil => simp [List.lookup] at h
  | cons e es ih =>
    by_cases hk : n = e.1
    · subst hk
      exact List.mem_cons_self _ _
    · have hb : (n == e.1) = false := beq_false_of_ne hk
      rcases e with ⟨k, v⟩
      rw [List.lookup] at h
      simp only at hb
      rw [hb] at h
      exact List.mem_cons_of_mem _ (ih h)

theorem remainingCount_lookup_lt {env : Env} {n : String} {d : DcDef}
    {parents : List String} (hl : List.lookup n env = some d)
    (hc : parents.contains n = false) :
    remainingCount env (n :: parents) < remainingCount env parents := by
  have hmem := mem_keys_of_lookup hl
  refine filter_length_strict _ _ _ ?_ n hmem ?_ ?_
  · intro x hx
    have hx2 : ((n :: parents).contains x) = false := by
      cases hcc : ((n :: parents).contains x)
      · rfl
      · rw [hcc] at hx
        simp at hx
    have hx3 : parents.contains x = false := by
      rw [List.contains_cons] at hx2
      cases hpp : parents.contains x
      · rfl
      · rw [hpp] at hx2
        simp at hx2
    show (!(parents.contains x)) = true
    rw [hx3]
    rfl
  · show (!(parents.contains n)) = true
    rw [hc]
    rfl
  · show (!((n :: parents).contains n)) = false
    rw [List.contains_cons]
    simp

theorem lex3_of {a1 a2 a3 b1 b2 b3 : Nat}
    (h : a1 < b1 ∨ (a1 = b1 ∧ (a2 < b2 ∨ (a2 = b2 ∧ a3 < b3)))) :
    Prod.Lex (fun x y => x < y)
      (Prod.Lex (fun x y => x < y) (fun x y => x < y))
      (a1, a2, a3) (b1, b2, b3) := by
  rcases h with h | ⟨rfl, h⟩
  · exact Prod.Lex.left _ _ h
  · rcases h with h | ⟨rfl, h⟩
    · exact Prod.Lex.right _ (Prod.Lex.left _ _ h)
    · exact Prod.Lex.right _ (Prod.Lex.right _ h)

mutual

/-- Function `ParserDefinition.from_dataclass` (src/dcargs/_parsers.py lines
51-158).  Entry: the `assert _resolver.is_dataclass(cls)` (modelled as the
`notDataclass` error for a non-dataclass or unknown class), the resolution
of the generic alias to its origin plus fresh substitution map, the
composition of that map through the parent map (lines 71-74), and the
cyclic-dependency assertion (lines 76-78, checked against the path set
before this class is added).  The per-field loop is `processFields`. -/
def fromDataclass (env : Env) (t : FTy) (parents : List String)
    (parentMap : Option (List (String × FTy))) : Except PErr Parser :=
  match t with
  | .dcRef n targs =>
    match henv : List.lookup n env with
    | none => .error .notDataclass
    | some dcd =>
      let tf := composeWithParent parentMap (dcd.params.zip targs)
      if hcyc : parents.contains n = true then .error (.cyclic n)
      else processFields env tf (n :: parents) dcd.fields [] none
  | _ => .error .notDataclass
termination_by (remainingCount env parents, 0, 0)
decreasing_by
  apply lex3_of
  have hlt := remainingCount_lookup_lt henv
    (by
      cases hcv : parents.contains n
      · rfl
      · exact absurd hcv hcyc)
  omega

/-- The field loop of `from_dataclass` (lines 80-151): skip non-init
fields; recurse into nested dataclass field types, splice the child
arguments with delimiter-joined names and bubble its subparsers up
(asserting at most one group, line 108); turn a qualifying union field
into a subparsers group (asserting at most one group, line 122, and taking
`required` from the tuple-to-list comparison of line 139); otherwise make
a leaf argument. -/
def processFields (env : Env) (tf : List (String × FTy))
    (parents : List String) (fields : List DcField)
    (args : List Arg) (subs : Option Subp) : Except PErr Parser :=
  match fields with
  | [] => .ok (.mk args subs)
  | f :: rest =>
    if f.finit = false then
      processFields env tf parents rest args subs
    else if isDataclassFieldTy env f.ftype then
      match fromDataclass env f.ftype parents (some tf) with
      | .error e => .error e
      | .ok child =>
        let renamed := child.args.map (fun a =>
          { a with aname := f.fname ++ nestedDelim ++ a.aname })
        match child.subs with
        | some cs =>
          match subs with
          | some s => .error (.multipleSubparsers s.sname)
          | none => processFields env tf parents rest (args ++ renamed) (some cs)
        | none => processFields env tf parents rest (args ++ renamed) subs
    else
      match f.ftype with
      | .unionTy arms =>
        if unionQualifies env arms then
          match subs with
          | some s => .error (.multipleSubparsers s.sname)
          | none =>
            match processArms env tf parents
                (arms.filter (fun a => !(isNoneFTy a))) with
            | .error e => .error e
            | .ok ps =>
              processFields env tf parents rest args
                (some (.mk f.fname
                  (pySeqEq (.tup, arms)
                    (.lst, arms.filter (fun a => !(isNoneFTy a)))) ps))
        else
          processFields env tf parents rest
            (args ++ [makeArgFromField tf f]) subs
      | _ =>
        processFields env tf parents rest
          (args ++ [makeArgFromField tf f]) subs
termination_by (remainingCount env parents, 1, fields.length)
decreasing_by
  all_goals apply lex3_of
  all_goals simp only [List.length_cons, true_and, and_true]
  all_goals omega

/-- The per-arm dict comprehension of the subparsers construction (lines
129-137): one recursive `from_dataclass` call per non-null union arm, in
declaration order, keyed by the `__name__` of each arm. -/
def processArms (env : Env) (tf : List (String × FTy))
    (parents : List String) (arms : List FTy) :
    Except PErr (List (String × Parser)) :=
  match arms with
  | [] => .ok []
  | a :: rest =>
    match fromDataclass env a parents (some tf) with
    | .error e => .error e
    | .ok p =>
      match processArms env tf parents rest with
      | .error e => .error e
      | .ok ps => .ok (((armNameOpt a).getD (""), p) :: ps)
termination_by (remainingCount env parents, 0, arms.length + 1)
decreasing_by
  all_goals apply lex3_of
  all_goals simp only [List.length_cons, true_and, and_true]
  all_goals omega

end

/-! ## Structure of successful resolutions (for the cycle-detection claim) -/

/-- Did an `Except` computation succeed? -/
def exceptIsOk {ε α : Type} : Except ε α → Bool
  | .ok _ => true
  | .error _ => false

theorem processArms_ok_each :
    ∀ (arms : List FTy) (env : Env) (tf : List (String × FTy))
      (parents : List String) (ps : List (String × Parser)),
      processArms env tf parents arms = .ok ps →
      ∀ a ∈ arms, ∃ pa, fromDataclass env a parents (some tf) = .ok pa := by
  intro arms
  induction arms with
  | nil =>
    intro env tf parents ps h a ha
    cases ha
  | cons x rest ih =>
    intro env tf parents ps h a ha
    rw [processArms.eq_def] at h
    simp only [] at h
    rcases List.mem_cons.mp ha with rfl | ha2
    · cases hfd : fromDataclass env a parents (some tf) with
      | error e =>
        rw [hfd] at h
        simp at h
      | ok p => exact ⟨p, rfl⟩
    · cases hfd : fromDataclass env x parents (some tf) with
      | error e =>
        rw [hfd] at h
        simp at h
      | ok p =>
        rw [hfd] at h
        simp only [] at h
        cases hpa : processArms env tf parents rest with
        | error e =>
          rw [hpa] at h
          simp at h
        | ok ps2 => exact ih env tf parents ps2 hpa a ha2

theorem processFields_ok_calls :
    ∀ (fields : List DcField) (env : Env) (tf : List (String × FTy))
      (parents : List String) (args : List Arg) (subs : Option Subp)
      (res : Parser),
      processFields env tf parents fields args subs = .ok res →
      ∀ f ∈ fields, f.finit = true →
        (isDataclassFieldTy env f.ftype = true →
          ∃ child, fromDataclass env f.ftype parents (some tf) = .ok child) ∧
        (∀ arms, f.ftype = .unionTy arms → unionQualifies env arms = true →
          ∃ ps, processArms env tf parents
            (arms.filter (fun a => !(isNoneFTy a))) = .ok ps) := by
  intro fields
  induction fields with
  | nil =>
    intro env tf parents args subs res h f hf
    cases hf
  | cons g rest ih =>
    intro env tf parents args subs res h f hf hinit
    rw [processFields.eq_def] at h
    simp only [] at h
    rcases List.mem_cons.mp hf with rfl | hf2
    · rw [if_neg (by simp [hinit])] at h
      by_cases hdc : isDataclassFieldTy env f.ftype = true
      · rw [if_pos hdc] at h
        refine ⟨?_, ?_⟩
        · intro _
          cases hch : fromDataclass env f.ftype parents (some tf) with
          | error e =>
            rw [hch] at h
            simp at h
          | ok child => exact ⟨child, rfl⟩
        · intro arms harms
          rw [harms] at hdc
          exact absurd hdc (by simp [isDataclassFieldTy])
      · rw [if_neg hdc] at h
        refine ⟨fun hc => absurd hc hdc, ?_⟩
        intro arms harms hq
        rw [harms] at h
        simp only [] at h
        rw [if_pos hq] at h
        cases subs with
        | some s => simp at h
        | none =>
          simp only [] at h
          cases hpa : processArms env tf parents
              (arms.filter (fun a => !(isNoneFTy a))) with
          | error e =>
            rw [hpa] at h
            simp at h
          | ok ps => exact ⟨ps, rfl⟩
    · by_cases hgi : g.finit = false
      · rw [if_pos hgi] at h
        exact ih env tf parents args subs res h f hf2 hinit
      · rw [if_neg hgi] at h
        by_cases hdc : isDataclassFieldTy env g.ftype = true
        · rw [if_pos hdc] at h
          cases hch : fromDataclass env g.ftype parents (some tf) with
          | error e =>
            rw [hch] at h
            simp at h
          | ok child =>
            rw [hch] at h
            simp only [] at h
            cases hcs : child.subs with
            | some cs =>
              rw [hcs] at h
              simp only [] at h
              cases subs with
              | some s => simp at h
              | none =>
                simp only [] at h
                exact ih env tf parents _ _ res h f hf2 hinit
            | none =>
              rw [hcs] at h
              simp only [] at h
              exact ih env tf parents _ _ res h f hf2 hinit
        · rw [if_neg hdc] at h
          cases hgt : g.ftype with
          | unionTy arms =>
            rw [hgt] at h
            simp only [] at h
            by_cases hq : unionQualifies env arms = true
            · rw [if_pos hq] at h
              cases subs with
              | some s => simp at h
              | none =>
                simp only [] at h
                cases hpa : processArms env tf parents
                    (arms.filter (fun a => !(isNoneFTy a))) with
                | error e =>
                  rw [hpa] at h
                  simp at h
                | ok ps =>
                  rw [hpa] at h
                  simp only [] at h
                  exact ih env tf parents _ _ res h f hf2 hinit
            · rw [if_neg hq] at h
              exact ih env tf parents _ _ res h f hf2 hinit
          | leaf nm =>
            rw [hgt] at h
            simp only [] at h
            exact ih env tf parents _ _ res h f hf2 hinit
          | noneTy =>
            rw [hgt] at h
            simp only [] at h
            exact ih env tf parents _ _ res h f hf2 hinit
          | tyvar v =>
            rw [hgt] at h
            simp only [] at h
            exact ih env tf parents _ _ res h f hf2 hinit
          | dcRef n as =>
            rw [hgt] at h
            simp only [] at h
            exact ih env tf parents _ _ res h f hf2 hinit

theorem fromDataclass_ok_parts {env : Env} {n : String} {targs : List FTy}
    {parents : List String} {pm : Option (List (String × FTy))} {p : Parser}
    (h : fromDataclass env (.dcRef n targs) parents pm = .ok p) :
    parents.contains n = false ∧
    ∃ dcd, List.lookup n env = some dcd ∧
      processFields env (composeWithParent pm (dcd.params.zip targs))
        (n :: parents) dcd.fields [] none = .ok p := by
  rw [fromDataclass.eq_def] at h
  simp only [] at h
  split at h
  · simp at h
  · rename_i dcd henv
    split at h
    · simp at h
    · rename_i hcyc
      refine ⟨?_, dcd, henv, h⟩
      cases hcv : parents.contains n
      · rfl
      · exact absurd hcv hcyc

/-- The recursion targets contributed by one field of a dataclass: the
referenced class of a nested dataclass field, or the non-null arms of a
qualifying union field.  These are exactly the types `from_dataclass`
recurses into while processing the field. -/
def fieldTargets (env : Env) (f : DcField) : List String :=
  if f.finit = false then []
  else if isDataclassFieldTy env f.ftype then
    match f.ftype with
    | .dcRef m _ => [m]
    | _ => []
  else
    match f.ftype with
    | .unionTy arms =>
      if unionQualifies env arms then
        (arms.filter (fun a => !(isNoneFTy a))).filterMap armNameOpt
      else []
    | _ => []

/-- All recursion targets of a dataclass by name. -/
def targets (env : Env) (n : String) : List String :=
  match List.lookup n env with
  | none => []
  | some dcd => (dcd.fields.map (fieldTargets env)).flatten

/-- Relation: `a` contains `b` as a field type, directly or transitively, along the
edges `from_dataclass` recurses through. -/
inductive Reaches (env : Env) : String → String → Prop where
  | direct {a b : String} : b ∈ targets env a → Reaches env a b
  | step {a b c : String} : b ∈ targets env a → Reaches env b c →
      Reaches env a c

theorem fromDataclass_ok_target_ok {env : Env} {n : String} {targs : List FTy}
    {parents : List String} {pm : Option (List (String × FTy))} {p : Parser}
    (h : fromDataclass env (.dcRef n targs) parents pm = .ok p) :
    ∀ b ∈ targets env n, ∃ bargs pm2 pb,
      fromDataclass env (.dcRef b bargs) (n :: parents) pm2 = .ok pb := by
  obtain ⟨hc, dcd, henv, hpf⟩ := fromDataclass_ok_parts h
  intro b hb
  rw [targets, henv] at hb
  simp only [List.mem_flatten, List.mem_map] at hb
  obtain ⟨l, ⟨f, hf, rfl⟩, hbl⟩ := hb
  rw [fieldTargets] at hbl
  by_cases hfi : f.finit = false
  · rw [if_pos hfi] at hbl
    cases hbl
  · rw [if_neg hfi] at hbl
    have hinit : f.finit = true := by
      cases hfv : f.finit
      · exact absurd hfv hfi
      · rfl
    by_cases hdc : isDataclassFieldTy env f.ftype = true
    · rw [if_pos hdc] at hbl
      cases hft : f.ftype with
      | dcRef m margs =>
        rw [hft] at hbl
        simp only [List.mem_singleton] at hbl
        subst hbl
        obtain ⟨child, hchild⟩ :=
          (processFields_ok_calls dcd.fields env _ (n :: parents) [] none p
            hpf f hf hinit).1 hdc
        rw [hft] at hchild
        exact ⟨margs, some _, child, hchild⟩
      | leaf nm =>
        rw [hft] at hbl
        cases hbl
      | noneTy =>
        rw [hft] at hbl
        cases hbl
      | tyvar v =>
        rw [hft] at hbl
        cases hbl
      | unionTy arms =>
        rw [hft] at hbl
        cases hbl
    · rw [if_neg hdc] at hbl
      cases hft : f.ftype with
      | unionTy arms =>
        rw [hft] at hbl
        simp only [] at hbl
        by_cases hq : unionQualifies env arms = true
        · rw [if_pos hq] at hbl
          simp only [List.mem_filterMap] at hbl
          obtain ⟨arm, harm, hname⟩ := hbl
          obtain ⟨ps, hps⟩ :=
            (processFields_ok_calls dcd.fields env _ (n :: parents) [] none p
              hpf f hf hinit).2 arms hft hq
          obtain ⟨pa, hpa⟩ :=
            processArms_ok_each _ env _ (n :: parents) ps hps arm harm
          cases arm with
          | dcRef m margs =>
            simp only [armNameOpt, Option.some.injEq] at hname
            subst hname
            exact ⟨margs, some _, pa, hpa⟩
          | leaf nm => simp [armNameOpt] at hname
          | noneTy => simp [armNameOpt] at hname
          | tyvar v => simp [armNameOpt] at hname
          | unionTy as2 => simp [armNameOpt] at hname
        · rw [if_neg hq] at hbl
          cases hbl
      | leaf nm =>
        rw [hft] at hbl
        cases hbl
      | noneTy =>
        rw [hft] at hbl
        cases hbl
      | tyvar v =>
        rw [hft] at hbl
        cases hbl
      | dcRef m margs =>
        rw [hft] at hbl
        cases hbl

theorem reaches_ok_not_mem {env : Env} {a c : String}
    (hr : Reaches env a c) :
    ∀ (parents : List String) (targs : List FTy)
      (pm : Option (List (String × FTy))) (p : Parser),
      fromDataclass env (.dcRef a targs) parents pm = .ok p →
      c ∉ a :: parents := by
  induction hr with
  | direct hb =>
    rename_i a b
    intro parents targs pm p hok
    obtain ⟨bargs, pm2, pb, hbok⟩ := fromDataclass_ok_target_ok hok b hb
    have hbc := (fromDataclass_ok_parts hbok).1
    intro hmem
    have : (a :: parents).contains b = true := by
      rw [List.contains_iff_exists_mem_beq]
      exact ⟨b, hmem, by simp⟩
    rw [this] at hbc
    cases hbc
  | step hb hr2 ih =>
    rename_i a b c
    intro parents targs pm p hok
    obtain ⟨bargs, pm2, pb, hbok⟩ := fromDataclass_ok_target_ok hok b hb
    have hnot := ih (a :: parents) bargs pm2 pb hbok
    intro hmem
    exact hnot (List.mem_cons_of_mem _ hmem)

/-! ## Step equations for concrete evaluation -/

theorem processArms_nil (env : Env) (tf : List (String × FTy))
    (parents : List String) : processArms env tf parents [] = .ok [] := by
  rw [processArms.eq_def]

theorem processArms_cons_ok {env : Env} {tf : List (String × FTy)}
    {parents : List String} {a : FTy} {rest : List FTy} {pa : Parser}
    {ps : List (String × Parser)}
    (ha : fromDataclass env a parents (some tf) = .ok pa)
    (hrest : processArms env tf parents rest = .ok ps) :
    processArms env tf parents (a :: rest) =
      .ok (((armNameOpt a).getD (""), pa) :: ps) := by
  rw [processArms.eq_def]
  simp only []
  rw [ha]
  simp only []
  rw [hrest]

theorem processFields_nil (env : Env) (tf : List (String × FTy))
    (parents : List String) (args : List Arg) (subs : Option Subp) :
    processFields env tf parents [] args subs = .ok (.mk args subs) := by
  rw [processFields.eq_def]

theorem processFields_leaf_step {env : Env} {tf : List (String × FTy)}
    {parents : List String} {f : DcField} {rest : List DcField}
    {args : List Arg} {subs : Option Subp}
    (hinit : f.finit = true)
    (hnotdc : isDataclassFieldTy env f.ftype = false)
    (hnotun : (match f.ftype with | .unionTy _ => false | _ => true) = true) :
    processFields env tf parents (f :: rest) args subs =
      processFields env tf parents rest
        (args ++ [makeArgFromField tf f]) subs := by
  rw [processFields.eq_def]
  simp only []
  rw [if_neg (by simp [hinit])]
  rw [if_neg (by simp [hnotdc])]
  cases hft : f.ftype with
  | unionTy arms =>
    rw [hft] at hnotun
    simp at hnotun
  | leaf nm => rfl
  | noneTy => rfl
  | tyvar v => rfl
  | dcRef m margs => rfl

theorem processFields_union_step {env : Env} {tf : List (String × FTy)}
    {parents : List String} {f : DcField} {arms : List FTy}
    {rest : List DcField} {args : List Arg} {ps : List (String × Parser)}
    (hft : f.ftype = .unionTy arms)
    (hinit : f.finit = true)
    (hq : unionQualifies env arms = true)
    (hpa : processArms env tf parents
      (arms.filter (fun a => !(isNoneFTy a))) = .ok ps) :
    processFields env tf parents (f :: rest) args none =
      processFields env tf parents rest args
        (some (.mk f.fname
          (pySeqEq (.tup, arms) (.lst, arms.filter (fun a => !(isNoneFTy a))))
          ps)) := by
  rw [processFields.eq_def]
  simp only []
  rw [if_neg (by simp [hinit])]
  rw [if_neg (by simp [hft, isDataclassFieldTy])]
  rw [hft]
  simp only []
  rw [if_pos hq]
  rw [hpa]

theorem processFields_union_conflict {env : Env} {tf : List (String × FTy)}
    {parents : List String} {f : DcField} {arms : List FTy}
    {rest : List DcField} {args : List Arg} {s : Subp}
    (hft : f.ftype = .unionTy arms)
    (hinit : f.finit = true)
    (hq : unionQualifies env arms = true) :
    processFields env tf parents (f :: rest) args (some s) =
      .error (.multipleSubparsers s.sname) := by
  rw [processFields.eq_def]
  simp only []
  rw [if_neg (by simp [hinit])]
  rw [if_neg (by simp [hft, isDataclassFieldTy])]
  rw [hft]
  simp only []
  rw [if_pos hq]

theorem processFields_nested_step {env : Env} {tf : List (String × FTy)}
    {parents : List String} {f : DcField} {rest : List DcField}
    {args : List Arg} {subs : Option Subp} {child : Parser}
    (hinit : f.finit = true)
    (hdc : isDataclassFieldTy env f.ftype = true)
    (hch : fromDataclass env f.ftype parents (some tf) = .ok child)
    (hcs : child.subs = none) :
    processFields env tf parents (f :: rest) args subs =
      processFields env tf parents rest
        (args ++ child.args.map (fun a =>
          { a with aname := f.fname ++ nestedDelim ++ a.aname })) subs := by
  rw [processFields.eq_def]
  simp only []
  rw [if_neg (by simp [hinit])]
  rw [if_pos hdc]
  rw [hch]
  simp only []
  rw [hcs]

theorem processFields_nested_error {env : Env} {tf : List (String × FTy)}
    {parents : List String} {f : DcField} {rest : List DcField}
    {args : List Arg} {subs : Option Subp} {e : PErr}
    (hinit : f.finit = true)
    (hdc : isDataclassFieldTy env f.ftype = true)
    (hch : fromDataclass env f.ftype parents (some tf) = .error e) :
    processFields env tf parents (f :: rest) args subs = .error e := by
  rw [processFields.eq_def]
  simp only []
  rw [if_neg (by simp [hinit])]
  rw [if_pos hdc]
  rw [hch]

theorem fromDataclass_entry {env : Env} {n : String} {targs : List FTy}
    {parents : List String} {pm : Option (List (String × FTy))} {dcd : DcDef}
    (henv : List.lookup n env = some dcd)
    (hcyc : parents.contains n = false) :
    fromDataclass env (.dcRef n targs) parents pm =
      processFields env (composeWithParent pm (dcd.params.zip targs))
        (n :: parents) dcd.fields [] none := by
  rw [fromDataclass.eq_def]
  simp only []
  split
  · rename_i h2
    rw [henv] at h2
    cases h2
  · rename_i dcd2 h2
    rw [henv] at h2
    injection h2 with h3
    subst h3
    split
    · rename_i hcv
      rw [hcyc] at hcv
      cases hcv
    · rfl

theorem fromDataclass_entry2 {env : Env} {n : String} {targs : List FTy}
    {parents : List String} {pm : Option (List (String × FTy))}
    {params : List String} {fields : List DcField}
    (henv : List.lookup n env = some ⟨params, fields⟩)
    (hcyc : parents.contains n = false) :
    fromDataclass env (.dcRef n targs) parents pm =
      processFields env (composeWithParent pm (params.zip targs))
        (n :: parents) fields [] none :=
  fromDataclass_entry henv hcyc

theorem fromDataclass_cyclic {env : Env} {n : String} {targs : List FTy}
    {parents : List String} {pm : Option (List (String × FTy))} {dcd : DcDef}
    (henv : List.lookup n env = some dcd)
    (hcyc : parents.contains n = true) :
    fromDataclass env (.dcRef n targs) parents pm = .error (.cyclic n) := by
  rw [fromDataclass.eq_def]
  simp only []
  split
  · rename_i h2
    rw [henv] at h2
    cases h2
  · rename_i dcd2 h2
    split
    all_goals first
      | rfl
      | (rename_i hcv
         rw [hcyc] at hcv
         exact absurd rfl hcv)

/-! ## Concrete environments -/

/-- A dataclass with a single `int` leaf field. -/
def dcdLeafInt (fname : String) : DcDef :=
  ⟨[], [⟨fname, .leaf ("int"), true⟩]⟩

theorem fromDataclass_leafInt {env : Env} {n fname : String}
    {targs : List FTy} {parents : List String}
    {pm : Option (List (String × FTy))}
    (henv : List.lookup n env = some (dcdLeafInt fname))
    (hcyc : parents.contains n = false) :
    fromDataclass env (.dcRef n targs) parents pm =
      .ok (.mk [⟨fname, .leaf ("int")⟩] none) := by
  refine Eq.trans (fromDataclass_entry2 henv hcyc) ?_
  refine Eq.trans (processFields_leaf_step rfl rfl rfl) ?_
  refine Eq.trans (processFields_nil _ _ _ _ _) ?_
  rfl

/-- The dataclass `D` with one field `command: Union[A, B]` over the
one-int-field dataclasses `A` and `B` (no null arm). -/
def envC2 : Env :=
  [(("D"), ⟨[], [⟨("command"),
      .unionTy [.dcRef ("A") [], .dcRef ("B") []], true⟩]⟩),
   (("A"), dcdLeafInt ("x")),
   (("B"), dcdLeafInt ("y"))]

/-- A dataclass `A` whose only field has type `A` (a direct cycle). -/
def envPureCycle : Env :=
  [(("A"), ⟨[], [⟨("a"), .dcRef ("A") [], true⟩]⟩)]

/-- A dataclass `D` with two sibling fields of the same dataclass type
`P`. -/
def envSiblings : Env :=
  [(("D"), ⟨[], [⟨("a"), .dcRef ("P") [], true⟩,
                 ⟨("b"), .dcRef ("P") [], true⟩]⟩),
   (("P"), dcdLeafInt ("v"))]

/-- The declaration of `A` in `envCx`: two qualifying union fields
followed by a direct self-reference. -/
def dcdACx : DcDef :=
  ⟨[], [⟨("u1"), .unionTy [.dcRef ("B") [], .dcRef ("C") []], true⟩,
        ⟨("u2"), .unionTy [.dcRef ("B") [], .dcRef ("C") []], true⟩,
        ⟨("z"), .dcRef ("A") [], true⟩]⟩

/-- A self-containing dataclass whose earlier fields already raise the
one-subparser-group assertion. -/
def envCx : Env :=
  [(("A"), dcdACx),
   (("B"), dcdLeafInt ("x")),
   (("C"), dcdLeafInt ("y"))]

/-- Two sibling fields instantiating the generic record `G[S]` with the
two different concrete leaf types `s1` and `s2`. -/
def envGen (s1 s2 : String) : Env :=
  [(("D"), ⟨[], [⟨("a"), .dcRef ("G") [.leaf s1], true⟩,
                 ⟨("b"), .dcRef ("G") [.leaf s2], true⟩]⟩),
   (("G"), ⟨[("S")], [⟨("x"), .tyvar ("S"), true⟩]⟩)]

/-- A two-level generic instantiation: `T[s]` whose field has type
`G[S]`, with `S` bound only at the outer level. -/
def envTri (s : String) : Env :=
  [(("T"), ⟨[("S")], [⟨("a"), .dcRef ("G") [.tyvar ("S")], true⟩]⟩),
   (("G"), ⟨[("S")], [⟨("x"), .tyvar ("S"), true⟩]⟩)]

/-! ## Claim C2 -/

/-- Claim C2 (evaluation at the failing input): `Union[A, B]` with no null
arm over the decomposable records `A` and `B` does become a subcommand
group with tags exactly `A`, `B` in declaration order and no inlined
argument, but its required flag is `false` even though the union carries
no null arm: line 139 compares the tuple `field.type.__args__` against a
list, and a Python tuple never equals a list. -/
theorem c2_union_required_flag_evaluation :
    fromDataclass envC2 (.dcRef ("D") []) [] none =
      .ok (.mk []
        (some (.mk ("command") false
          [(("A"), .mk [⟨("x"), .leaf ("int")⟩] none),
           (("B"), .mk [⟨("y"), .leaf ("int")⟩] none)]))) ∧
    (FTy.noneTy ∈ [FTy.dcRef ("A") [], FTy.dcRef ("B") []] → False) := by
  constructor
  · have hA : fromDataclass envC2 (.dcRef ("A") []) [("D")] (some []) =
        .ok (.mk [⟨("x"), .leaf ("int")⟩] none) :=
      fromDataclass_leafInt rfl rfl
    have hB : fromDataclass envC2 (.dcRef ("B") []) [("D")] (some []) =
        .ok (.mk [⟨("y"), .leaf ("int")⟩] none) :=
      fromDataclass_leafInt rfl rfl
    have harms : processArms envC2 [] [("D")]
        [FTy.dcRef ("A") [], FTy.dcRef ("B") []] =
        .ok [(("A"), .mk [⟨("x"), .leaf ("int")⟩] none),
             (("B"), .mk [⟨("y"), .leaf ("int")⟩] none)] :=
      processArms_cons_ok hA (processArms_cons_ok hB (processArms_nil _ _ _))
    refine Eq.trans (fromDataclass_entry2 rfl rfl) ?_
    refine Eq.trans (processFields_union_step rfl rfl rfl harms) ?_
    refine Eq.trans (processFields_nil _ _ _ _ _) ?_
    rfl
  · intro hmem
    simp at hmem

/-! ## Claim C3 -/

/-- Counterexample to claim C3 as stated: `A` in `envCx` directly contains
itself as a field type, and resolution does terminate with a hard error,
but the error raised is the one-subparser-group assertion (triggered by
the two earlier union fields), not the cyclic-dependency error. -/
theorem c3_counterexample :
    List.lookup ("A") envCx = some dcdACx ∧
    (⟨("z"), FTy.dcRef ("A") [], true⟩ : DcField) ∈ dcdACx.fields ∧
    ("A") ∈ targets envCx ("A") ∧
    fromDataclass envCx (.dcRef ("A") []) [] none =
      .error (.multipleSubparsers ("u1")) ∧
    (∀ (s : String),
      (PErr.multipleSubparsers ("u1")) = PErr.cyclic s → False) := by
  refine ⟨rfl, ?_, ?_, ?_, ?_⟩
  · simp [dcdACx]
  · decide
  · have hB : fromDataclass envCx (.dcRef ("B") []) [("A")] (some []) =
        .ok (.mk [⟨("x"), .leaf ("int")⟩] none) :=
      fromDataclass_leafInt rfl rfl
    have hC : fromDataclass envCx (.dcRef ("C") []) [("A")] (some []) =
        .ok (.mk [⟨("y"), .leaf ("int")⟩] none) :=
      fromDataclass_leafInt rfl rfl
    have harms : processArms envCx [] [("A")]
        [FTy.dcRef ("B") [], FTy.dcRef ("C") []] =
        .ok [(("B"), .mk [⟨("x"), .leaf ("int")⟩] none),
             (("C"), .mk [⟨("y"), .leaf ("int")⟩] none)] :=
      processArms_cons_ok hB (processArms_cons_ok hC (processArms_nil _ _ _))
    refine Eq.trans (fromDataclass_entry2 rfl rfl) ?_
    refine Eq.trans (processFields_union_step rfl rfl rfl harms) ?_
    exact processFields_union_conflict rfl rfl rfl
  · intro s h
    cases h

/-- Claim C3 as amended: resolution always terminates (`fromDataclass` is
a total function); a record type that directly or transitively contains
itself as a field type never resolves successfully — it raises a hard
error, which is the cyclic-dependency error unless an earlier hard error
(such as a second subcommand group) preempts it; and the recursion-path
set is extended per child call without sharing across sibling branches, so
two sibling fields of the same dataclass type resolve successfully. -/
theorem c3_amended_cycle_detection :
    (∀ (env : Env) (a : String), Reaches env a a →
      ∀ (targs : List FTy) (parents : List String)
        (pm : Option (List (String × FTy))),
        exceptIsOk (fromDataclass env (.dcRef a targs) parents pm) = false) ∧
    fromDataclass envPureCycle (.dcRef ("A") []) [] none =
      .error (.cyclic ("A")) ∧
    fromDataclass envSiblings (.dcRef ("D") []) [] none =
      .ok (.mk [⟨("a.v"), .leaf ("int")⟩, ⟨("b.v"), .leaf ("int")⟩] none) := by
  refine ⟨?_, ?_, ?_⟩
  · intro env a hr targs parents pm
    cases hres : fromDataclass env (.dcRef a targs) parents pm with
    | error e => rfl
    | ok p =>
      exact absurd (List.mem_cons_self a parents)
        (reaches_ok_not_mem hr parents targs pm p hres)
  · have hstep : fromDataclass envPureCycle (.dcRef ("A") []) [("A")]
        (some []) = .error (.cyclic ("A")) :=
      fromDataclass_cyclic rfl rfl
    refine Eq.trans (fromDataclass_entry2 rfl rfl) ?_
    exact processFields_nested_error rfl rfl hstep
  · have hP1 : fromDataclass envSiblings (.dcRef ("P") []) [("D")]
        (some []) = .ok (.mk [⟨("v"), .leaf ("int")⟩] none) :=
      fromDataclass_leafInt rfl rfl
    refine Eq.trans (fromDataclass_entry2 rfl rfl) ?_
    refine Eq.trans (processFields_nested_step rfl rfl hP1 rfl) ?_
    refine Eq.trans (processFields_nested_step rfl rfl hP1 rfl) ?_
    refine Eq.trans (processFields_nil _ _ _ _ _) ?_
    rfl

/-- Witness for the amended C3: the directly self-containing `A` of the
pure-cycle environment does not resolve successfully. -/
theorem c3_witness :
    exceptIsOk (fromDataclass envPureCycle (.dcRef ("A") []) [] none)
      = false :=
  c3_amended_cycle_detection.1 envPureCycle ("A")
    (Reaches.direct (by decide)) [] [] none

/-! ## Claim C6 -/

/-- Claim C6: substitution maps compose through the parent map before use
(lines 71-74), so sibling fields instantiating the same generic record
`G[S]` with different concrete types get independent leaf types (first
conjunct: the leaf under `a` is `s1` and the leaf under `b` is `s2`,
whatever `s1` and `s2` are), and a two-level generic instantiation
resolves the inner type variable through the outer binding (second
conjunct). -/
theorem c6_generic_substitution_composes :
    ∀ (s1 s2 : String),
      fromDataclass (envGen s1 s2) (.dcRef ("D") []) [] none =
        .ok (.mk [⟨("a.x"), .leaf s1⟩, ⟨("b.x"), .leaf s2⟩] none) ∧
      fromDataclass (envTri s1) (.dcRef ("T") [.leaf s1]) [] none =
        .ok (.mk [⟨("a.x"), .leaf s1⟩] none) := by
  intro s1 s2
  constructor
  · have hGa : fromDataclass (envGen s1 s2) (.dcRef ("G") [.leaf s1])
        [("D")] (some []) = .ok (.mk [⟨("x"), .leaf s1⟩] none) := by
      refine Eq.trans (fromDataclass_entry2 rfl rfl) ?_
      refine Eq.trans (processFields_leaf_step rfl rfl rfl) ?_
      refine Eq.trans (processFields_nil _ _ _ _ _) ?_
      rfl
    have hGb : fromDataclass (envGen s1 s2) (.dcRef ("G") [.leaf s2])
        [("D")] (some []) = .ok (.mk [⟨("x"), .leaf s2⟩] none) := by
      refine Eq.trans (fromDataclass_entry2 rfl rfl) ?_
      refine Eq.trans (processFields_leaf_step rfl rfl rfl) ?_
      refine Eq.trans (processFields_nil _ _ _ _ _) ?_
      rfl
    refine Eq.trans (fromDataclass_entry2 rfl rfl) ?_
    refine Eq.trans (processFields_nested_step rfl rfl hGa rfl) ?_
    refine Eq.trans (processFields_nested_step rfl rfl hGb rfl) ?_
    refine Eq.trans (processFields_nil _ _ _ _ _) ?_
    rfl
  · have hGaT : fromDataclass (envTri s1) (.dcRef ("G") [.tyvar ("S")])
        [("T")] (some [(("S"), FTy.leaf s1)]) =
        .ok (.mk [⟨("x"), .leaf s1⟩] none) := by
      refine Eq.trans (fromDataclass_entry2 rfl rfl) ?_
      refine Eq.trans (processFields_leaf_step rfl rfl rfl) ?_
      refine Eq.trans (processFields_nil _ _ _ _ _) ?_
      rfl
    refine Eq.trans (fromDataclass_entry2 rfl rfl) ?_
    refine Eq.trans (processFields_nested_step rfl rfl hGaT rfl) ?_
    refine Eq.trans (processFields_nil _ _ _ _ _) ?_
    rfl

/-! ## Claim C7 -/

/-- Claim C7: at every decomposition level at most one subcommand group
is attached; once a group is present, a second qualifying union field
(first conjunct) or a group bubbled up from a nested dataclass field
(second conjunct) raises the one-subparser-group hard error. -/
theorem c7_single_subcommand_group :
    ∀ (env : Env) (tf : List (String × FTy)) (parents : List String)
      (f : DcField) (arms : List FTy) (rest : List DcField)
      (args : List Arg) (s : Subp),
      f.finit = true →
      (f.ftype = .unionTy arms → unionQualifies env arms = true →
        processFields env tf parents (f :: rest) args (some s) =
          .error (.multipleSubparsers s.sname)) ∧
      (∀ child cs, isDataclassFieldTy env f.ftype = true →
        fromDataclass env f.ftype parents (some tf) = .ok child →
        child.subs = some cs →
        processFields env tf parents (f :: rest) args (some s) =
          .error (.multipleSubparsers s.sname)) := by
  intro env tf parents f arms rest args s hinit
  constructor
  · intro hft hq
    exact processFields_union_conflict hft hinit hq
  · intro child cs hdc hch hcs
    rw [processFields.eq_def]
    simp only []
    rw [if_neg (by simp [hinit])]
    rw [if_pos hdc]
    rw [hch]
    simp only []
    rw [hcs]

/-- Witness for C7: with a subcommand group already attached, a second
qualifying union field raises the one-subparser-group error. -/
theorem c7_witness :
    processFields envCx [] [("A")]
      [⟨("u2"), .unionTy [.dcRef ("B") [], .dcRef ("C") []], true⟩] []
      (some (.mk ("u1") false [])) =
      .error (.multipleSubparsers ("u1")) :=
  (c7_single_subcommand_group envCx [] [("A")]
    ⟨("u2"), .unionTy [.dcRef ("B") [], .dcRef ("C") []], true⟩
    [.dcRef ("B") [], .dcRef ("C") []] [] []
    (.mk ("u1") false []) rfl).1 rfl (by decide)
